import Mathlib

/-!
# PluginFS: dentry and inode operations

A shallow embedding of `src/pluginfs/dentry.c` and `src/pluginfs/inode.c` and the
properties established for them.

* `Walk`: the breadth-first dentry tree walker `plgfs_walk_dtree`.
* `Dpath`: the path reconstruction `plgfs_dpath`.
* `Ops`: the inode and dentry operation wrappers built around the plugin chain.

Definitions come first, theorems afterwards.
-/

/-! ## Directory tree walker (`plgfs_walk_dtree`, dentry.c) -/

namespace Walk

/-- A visible name-cache entry as the walker sees it: `id` stands for the address of the
`struct dentry`, `d_inode` is `none` for a negative entry and otherwise carries `i_mode`,
`d_subdirs` lists the children in enumeration order. -/
inductive dentry where
  | mk (id : Nat) (d_inode : Option Nat) (d_subdirs : List dentry)

def dentry.id : dentry → Nat
  | .mk i _ _ => i

def dentry.d_inode : dentry → Option Nat
  | .mk _ m _ => m

def dentry.d_subdirs : dentry → List dentry
  | .mk _ _ cs => cs

mutual
/-- Number of entries in the subtree below (and including) a dentry. -/
def dentry.size : dentry → Nat
  | .mk _ _ cs => 1 + sizeList cs
/-- Number of entries in a forest of dentries. -/
def sizeList : List dentry → Nat
  | [] => 0
  | c :: cs => c.size + sizeList cs
end

/-- The file-type test `S_ISDIR(m)`: `(m & S_IFMT) == S_IFDIR`. -/
def S_ISDIR (m : Nat) : Bool := (m &&& 0o170000) == 0o040000

def EINVAL : Int := 22

/-- Calls made by `plgfs_walk_dtree`, in program order. -/
inductive Event where
  | mutex_lock_walk
  | mutex_unlock_walk
  | dget (d : Nat)
  | list_add_tail (d : Nat)
  | cb (d : Nat) (rv : Int)
  | mutex_lock_i (d : Nat)
  | mutex_unlock_i (d : Nat)
  | spin_lock (d : Nat)
  | spin_lock_nested (d : Nat)
  | spin_unlock (d : Nat)
  | dget_dlock (d : Nat)
  | list_del_init (d : Nat)
  | dput (d : Nat)
  deriving DecidableEq, Repr

/-- State of one walk: the pending list `walk`, the callback's private `data`, and the
calls performed so far. -/
structure State (σ : Type) where
  walk : List dentry
  data : σ
  trace : List Event

/-- The inner `list_for_each_entry(d, &dp->d_subdirs, d_u.d_child)` loop: every child is
referenced under its own `d_lock` and appended to the pending list. -/
def enqueue_children {σ : Type} : List dentry → State σ → State σ
  | [], st => st
  | d :: ds, st =>
    enqueue_children ds
      { st with
        walk := st.walk ++ [d]
        trace := st.trace ++ [Event.spin_lock_nested d.id, Event.dget_dlock d.id,
          Event.spin_unlock d.id, Event.list_add_tail d.id] }

/-- The `skip:` label: the node just visited is unlinked from the pending list (it is the
head of the list) and its walk reference is dropped. -/
def skip {σ : Type} (dp : dentry) (st : State σ) : State σ :=
  { st with
    walk := st.walk.tail
    trace := st.trace ++ [Event.list_del_init dp.id, Event.dput dp.id] }

/-- Calls made by the `list_for_each_entry_safe` loop at the `error:` label. -/
def drain_events : List dentry → List Event
  | [] => []
  | d :: ds => Event.list_del_init d.id :: Event.dput d.id :: drain_events ds

/-- The `error:` label: every node still pending is unlinked and released. -/
def drain {σ : Type} (st : State σ) : State σ :=
  { st with walk := [], trace := st.trace ++ drain_events st.walk }

/-- The `while (!list_empty(&walk))` loop.  The result is the value of `rv` on leaving
the loop (either because the list ran empty or through `goto error`) and the state at
that point.  `fuel` bounds the number of iterations. -/
def walk_loop {σ : Type} (cb : dentry → σ → Int → Int × σ) (id : Int) :
    Nat → Int → State σ → Option (Int × State σ)
  | 0, _, _ => none
  | fuel + 1, rv, st =>
    match st.walk with
    | [] => some (rv, st)
    | dp :: _ =>
      let r := cb dp st.data id
      let st1 : State σ :=
        { st with data := r.2, trace := st.trace ++ [Event.cb dp.id r.1] }
      if r.1 > 0 then walk_loop cb id fuel r.1 (skip dp st1)
      else if r.1 < 0 then some (r.1, st1)
      else
        match dp.d_inode with
        | none => walk_loop cb id fuel r.1 (skip dp st1)
        | some mode =>
          if !S_ISDIR mode then walk_loop cb id fuel r.1 (skip dp st1)
          else
            let st2 : State σ :=
              { st1 with
                trace := st1.trace ++ [Event.mutex_lock_i dp.id, Event.spin_lock dp.id] }
            let st3 := enqueue_children dp.d_subdirs st2
            let st4 : State σ :=
              { st3 with
                trace := st3.trace ++ [Event.spin_unlock dp.id, Event.mutex_unlock_i dp.id] }
            walk_loop cb id fuel r.1 (skip dp st4)

/-- The function `plgfs_walk_dtree`.  `PLGFS_MAGIC` is the constant from `plgfs.h`,
`s_magic` is `root->d_sb->s_magic` and `id` is the value returned by
`plgfs_get_plugin_sb_id(plg, root->d_sb)`.  The loop gets one iteration per entry of the
tree plus one for the final emptiness test. -/
def plgfs_walk_dtree {σ : Type} (PLGFS_MAGIC s_magic : Nat) (id : Int)
    (cb : dentry → σ → Int → Int × σ) (root : dentry) (data : σ) :
    Option (Int × State σ) :=
  if s_magic ≠ PLGFS_MAGIC then some (-EINVAL, { walk := [], data := data, trace := [] })
  else if id < 0 then some (-EINVAL, { walk := [], data := data, trace := [] })
  else
    let st0 : State σ :=
      { walk := [root]
        data := data
        trace := [Event.mutex_lock_walk, Event.dget root.id, Event.list_add_tail root.id] }
    match walk_loop cb id (root.size + 1) 0 st0 with
    | none => none
    | some (rv, st) =>
      let st5 := drain st
      some (rv, { st5 with trace := st5.trace ++ [Event.mutex_unlock_walk] })

/-- References taken (`dget`, `dget_dlock`), in order. -/
def Event.acq : Event → Option Nat
  | .dget d => some d
  | .dget_dlock d => some d
  | _ => none

/-- References dropped (`dput`). -/
def Event.rel : Event → Option Nat
  | .dput d => some d
  | _ => none

/-- Nodes linked into the pending list. -/
def Event.enq : Event → Option Nat
  | .list_add_tail d => some d
  | _ => none

/-- Nodes unlinked from the pending list. -/
def Event.deq : Event → Option Nat
  | .list_del_init d => some d
  | _ => none

/-- Nodes the callback was invoked on. -/
def Event.call : Event → Option Nat
  | .cb d _ => some d
  | _ => none

/-- Change of the hold count of the per-mount walk mutex caused by one call. -/
def Event.walk_lock : Event → Int
  | .mutex_lock_walk => 1
  | .mutex_unlock_walk => -1
  | _ => 0

def acquired (tr : List Event) : List Nat := tr.filterMap Event.acq
def released (tr : List Event) : List Nat := tr.filterMap Event.rel
def enqueued (tr : List Event) : List Nat := tr.filterMap Event.enq
def dequeued (tr : List Event) : List Nat := tr.filterMap Event.deq
def called (tr : List Event) : List Nat := tr.filterMap Event.call

/-- Hold count of the walk mutex after a sequence of calls. -/
def walk_lock_depth (tr : List Event) : Int := (tr.map Event.walk_lock).sum

/-- A callback that aborts with `-4` (EINTR) on the node with address `2` and continues
everywhere else; its private data counts the invocations. -/
def cb_abort_on_2 (d : dentry) (n : Nat) (_ : Int) : Int × Nat :=
  (if d.id = 2 then -4 else 0, n + 1)

/-- A root directory (address 0) with the two children "a" (address 1) and "b"
(address 2), both regular files. -/
def root_ab : dentry :=
  dentry.mk 0 (some 0o040755) [dentry.mk 1 (some 0o100644) [], dentry.mk 2 (some 0o100644) []]

/-- Calls made by the child-enumeration loop for a list of children. -/
def child_events : List dentry → List Event
  | [] => []
  | d :: ds =>
    Event.spin_lock_nested d.id :: Event.dget_dlock d.id :: Event.spin_unlock d.id ::
      Event.list_add_tail d.id :: child_events ds

/-- Reference accounting at the head of the `while` loop: what has been acquired is what
has been released followed by what is pending; the callback has run on exactly the
released nodes; the walk mutex is held once. -/
structure LoopInv {σ : Type} (st : State σ) : Prop where
  acq : acquired st.trace = released st.trace ++ st.walk.map dentry.id
  enq : enqueued st.trace = dequeued st.trace ++ st.walk.map dentry.id
  deq : dequeued st.trace = released st.trace
  cbs : called st.trace = released st.trace
  depth : walk_lock_depth st.trace = 1

/-- The two ways of leaving the `while` loop: the list ran empty, or the callback
returned a negative value on the head `dp` of the list, which is then still linked. -/
def LoopPost {σ : Type} (rv : Int) (st : State σ) : Prop :=
  (0 ≤ rv ∧ st.walk = [] ∧ LoopInv st) ∨
  (rv < 0 ∧ ∃ st0 : State σ, LoopInv st0 ∧ ∃ dp pending, st0.walk = dp :: pending ∧
    st.walk = dp :: pending ∧ st.trace = st0.trace ++ [Event.cb dp.id rv])

end Walk

/-! ## Path reconstruction (`plgfs_dpath`, dentry.c) -/

namespace Dpath

/-- A visible entry as `plgfs_dpath` sees it: either the root (`IS_ROOT(d)`) or an entry
with the bytes of `d_name` and its parent `d_parent`. -/
inductive dentry where
  | root
  | child (d_name : List Nat) (d_parent : dentry)
  deriving DecidableEq, Repr

def IS_ROOT : dentry → Bool
  | .root => true
  | .child _ _ => false

def ENAMETOOLONG : Int := 36

/-- Value of a C `unsigned int` holding `x` modulo `2^32`. -/
def u32 (x : Int) : Int := x % 2 ^ 32

/-- Value of a C `int` after conversion from the 32-bit pattern of `x`. -/
def int32 (x : Int) : Int := (x + 2 ^ 31) % 2 ^ 32 - 2 ^ 31

/-- Operations on the process-wide `rename_lock`. -/
inductive Event where
  | read_seqlock_excl
  | read_sequnlock_excl
  deriving DecidableEq, Repr

/-- Memory around the caller's buffer, addressed relative to `buf` (so index `i` is the
byte `buf[i]`, inside the buffer when `0 ≤ i < len`), and the operations performed on
`rename_lock`. -/
structure State where
  buf : Int → Nat
  trace : List Event

/-- Returned `char *`: an error pointer or `buf + off`. -/
inductive Ret where
  | ERR_PTR (e : Int)
  | ptr (off : Int)
  deriving DecidableEq, Repr

/-- Assignment `m[i] = v`. -/
def store (m : Int → Nat) (i : Int) (v : Nat) : Int → Nat :=
  fun j => if j = i then v else m j

/-- The call `memcpy(m + dst, src, |src|)`. -/
def memcpy (m : Int → Nat) (dst : Int) : List Nat → Int → Nat
  | [] => m
  | x :: xs => memcpy (store m dst x) (dst + 1) xs

/-- The `while (!IS_ROOT(d))` loop.  Returns `none` when it leaves through `goto done`
with the error, otherwise the final value of `len`; in both cases the memory is returned
as well.  `len -= d->d_name.len + 1` is evaluated in unsigned 32-bit arithmetic and the
result converted back to `int`. -/
def dpath_loop : dentry → Int → (Int → Nat) → Option Int × (Int → Nat)
  | .root, len, m => (some len, m)
  | .child name p, len, m =>
    let len1 := int32 (u32 (u32 len - u32 (u32 name.length + 1)))
    if len1 < 0 then (none, m)
    else dpath_loop p len1 (store (memcpy m (len1 + 1) name) len1 47)

/-- The function `plgfs_dpath(d, buf, len)`. -/
def plgfs_dpath (d : dentry) (len : Int) (st : State) : Ret × State :=
  let len1 := int32 (len - 1)
  if len1 < 0 then (Ret.ERR_PTR (-ENAMETOOLONG), st)
  else
    let m1 := store st.buf len1 0
    let tr1 := st.trace ++ [Event.read_seqlock_excl]
    if IS_ROOT d && decide (int32 (len1 - 1) < 0) then
      (Ret.ERR_PTR (-ENAMETOOLONG), { buf := m1, trace := tr1 })
    else
      let len2 := if IS_ROOT d then int32 (len1 - 1) else len1
      let m2 := if IS_ROOT d then store m1 len2 47 else m1
      match dpath_loop d len2 m2 with
      | (none, m3) =>
        (Ret.ERR_PTR (-ENAMETOOLONG),
          { buf := m3, trace := tr1 ++ [Event.read_sequnlock_excl] })
      | (some len3, m3) =>
        (Ret.ptr len3, { buf := m3, trace := tr1 ++ [Event.read_sequnlock_excl] })

/-- Component names `n1 .. nk` on the way from the root down to the node. -/
def names : dentry → List (List Nat)
  | .root => []
  | .child n p => names p ++ [n]

/-- The bytes `/n1/n2/.../nk`. -/
def joined : List (List Nat) → List Nat
  | [] => []
  | n :: ns => 47 :: n ++ joined ns

/-- The absolute path named by the specification: `/` for the root, otherwise
`/n1/n2/.../nk`. -/
def path_string (ns : List (List Nat)) : List Nat :=
  match ns with
  | [] => [47]
  | _ :: _ => joined ns

/-- Buffer length the specification asks for: `2` for the root, otherwise
`1 + sum (|ni| + 1)`. -/
def needed (ns : List (List Nat)) : Int :=
  match ns with
  | [] => 2
  | _ :: _ => 1 + ((ns.map (fun n => n.length + 1)).sum : Nat)

/-- The `n` bytes of memory starting at `p`. -/
def read (m : Int → Nat) (p : Int) : Nat → List Nat
  | 0 => []
  | n + 1 => m p :: read m (p + 1) n

/-- The NUL-terminated string starting at `p`, reading at most `fuel` bytes. -/
def c_string (m : Int → Nat) (p : Int) : Nat → List Nat
  | 0 => []
  | fuel + 1 => if m p = 0 then [] else m p :: c_string m (p + 1) fuel

/-- Change of the hold count of `rename_lock` caused by one operation. -/
def Event.lock_delta : Event → Int
  | .read_seqlock_excl => 1
  | .read_sequnlock_excl => -1

/-- Hold count of `rename_lock` after a sequence of operations. -/
def rename_lock_depth (tr : List Event) : Int := (tr.map Event.lock_delta).sum

/-- The entry `/usr/lib`. -/
def usr_lib : dentry := dentry.child [108, 105, 98] (dentry.child [117, 115, 114] dentry.root)

/-- Memory filled with the byte 255 and an untouched `rename_lock`. -/
def st_ff : State := { buf := fun _ => 255, trace := [] }

end Dpath

/-! ## Operation wrappers (inode.c and the `dentry_operations` of dentry.c)

Pointers are machine words (`Int`, `0` for `NULL`, `-4095 .. -1` for error pointers).
Everything the wrappers call outside these two files is a call into a `Kernel`: an
arbitrary transition function on an abstract state, so that the theorems hold for every
behaviour of the backing filesystem and of the allocators.  The plugin chain is likewise a
pair of arbitrary functions on the call context. -/

namespace Ops

def ENOMEM : Int := 12
def EINVAL : Int := 22
def ENOTEMPTY : Int := 39
def ESTALE : Int := 116
def EACCES : Int := 13

/-- Largest error number encoded in a pointer (`MAX_ERRNO`). -/
def MAX_ERRNO : Int := 4095

/-- The test `IS_ERR(p)`: `(unsigned long)p >= (unsigned long)-MAX_ERRNO`. -/
def IS_ERR (p : Int) : Bool := decide (-MAX_ERRNO ≤ p ∧ p < 0)

/-- The bit `ATTR_FILE` of `ia_valid`. -/
def ATTR_FILE : Nat := 1 <<< 13

/-- The bit `I_NEW` of `i_state`. -/
def I_NEW : Nat := 1 <<< 3

def DCACHE_OP_HASH : Nat := 0x0001
def DCACHE_OP_COMPARE : Nat := 0x0002
def DCACHE_OP_REVALIDATE : Nat := 0x0004

def S_ISREG (m : Nat) : Bool := (m &&& 0o170000) == 0o100000
def S_ISDIR (m : Nat) : Bool := (m &&& 0o170000) == 0o040000

/-- Operation identifiers stored in `cont->op_id`. -/
inductive OpId where
  | PLGFS_DIR_IOP_LOOKUP
  | PLGFS_DIR_IOP_CREATE
  | PLGFS_REG_IOP_SETATTR
  | PLGFS_DIR_IOP_UNLINK
  | PLGFS_DIR_IOP_MKDIR
  | PLGFS_DIR_IOP_RMDIR
  | PLGFS_DIR_IOP_RENAME
  | PLGFS_DOP_D_RELEASE
  | PLGFS_DOP_D_REVALIDATE
  | PLGFS_DOP_D_HASH
  | PLGFS_DOP_D_COMPARE
  deriving DecidableEq, Repr

/-- The fields of `struct iattr` the wrappers touch. -/
structure iattr where
  ia_valid : Nat
  ia_file : Int
  deriving DecidableEq, Repr

/-- A `struct qstr`: length and bytes of a name. -/
structure qstr where
  len : Nat
  name : List Nat
  deriving DecidableEq, Repr

/-- Calls made by the wrappers, in program order, with their arguments. -/
inductive Event where
  | plgfs_alloc_context
  | plgfs_alloc_context_atomic
  | plgfs_free_context (cont : Int)
  | plgfs_precall_plgs
  | plgfs_postcall_plgs
  | mutex_lock (i : Int)
  | mutex_lock_nested (i : Int)
  | mutex_unlock (i : Int)
  | mutex_init (ii : Int)
  | lock_rename (p1 p2 : Int)
  | unlock_rename (p1 p2 : Int)
  | lookup_one_len (name : List Nat) (dph : Int) (len : Nat)
  | plgfs_alloc_di (d dh : Int)
  | set_d_fsdata (d di : Int)
  | dput (d : Int)
  | d_add (d i : Int)
  | d_instantiate (d i : Int)
  | igrab (ih : Int)
  | iget_locked (sb ino : Int)
  | iput (ih : Int)
  | kmem_cache_zalloc_ii
  | kmem_cache_free_di (di : Int)
  | set_i_private (i ii : Int)
  | set_inode_hidden (ii ih : Int)
  | set_i_op_reg (i : Int)
  | set_i_op_dir (i : Int)
  | unlock_new_inode (i : Int)
  | fsstack_copy_attr_all (dst src : Int)
  | fsstack_copy_attr_times (dst src : Int)
  | fsstack_copy_inode_size (dst src : Int)
  | vfs_create (iph dh : Int) (mode : Nat) (excl : Bool)
  | vfs_unlink (ih dh : Int)
  | vfs_mkdir (iph dh : Int) (mode : Nat)
  | vfs_rmdir (ih dh : Int)
  | vfs_rename (oih odh nih ndh : Int)
  | notify_change (dh ia : Int) (rec : iattr)
  | d_op_d_revalidate (dh : Int) (flags : Nat)
  | d_op_d_hash (dh s : Int)
  | d_op_d_compare (dph dh : Int) (len : Nat) (str : List Nat) (name : qstr)
  | pr_err
  deriving DecidableEq, Repr

/-- Calls that reach the backing filesystem. -/
def Event.is_backing : Event → Bool
  | .lookup_one_len _ _ _ => true
  | .vfs_create _ _ _ _ => true
  | .vfs_unlink _ _ => true
  | .vfs_mkdir _ _ _ => true
  | .vfs_rmdir _ _ => true
  | .vfs_rename _ _ _ _ => true
  | .notify_change _ _ _ => true
  | .d_op_d_revalidate _ _ => true
  | .d_op_d_hash _ _ => true
  | .d_op_d_compare _ _ _ _ _ => true
  | _ => false

/-- Calls that take a lock of the backing filesystem. -/
def Event.is_lock : Event → Bool
  | .mutex_lock _ => true
  | .mutex_lock_nested _ => true
  | .lock_rename _ _ => true
  | _ => false

/-- Everything outside inode.c and dentry.c: the state `κ` of the kernel and of the
backing filesystem, the effect `call` of every call on it together with the word it
returns, and the memory reads the wrappers perform (`plgfs_dh`, `plgfs_ih`, `plgfs_fh`,
`plgfs_di` are the accessor macros of `plgfs.h`; `ctx_rv` and `ctx_mode` are the contents
of the result slot and of the `mode` argument slot of a freshly allocated context;
`present` tells whether a backing entry exists in its directory). -/
structure Kernel (κ : Type) where
  call : Event → κ → Int × κ
  d_parent : κ → Int → Int
  d_inode : κ → Int → Int
  d_name : κ → Int → List Nat
  d_flags : κ → Int → Nat
  i_sb : κ → Int → Int
  i_state : κ → Int → Nat
  i_mode : κ → Int → Nat
  plgfs_dh : κ → Int → Int
  plgfs_ih : κ → Int → Int
  plgfs_fh : κ → Int → Int
  plgfs_di : κ → Int → Int
  ctx_rv : κ → Int → Int
  ctx_mode : κ → Int → Nat
  present : κ → Int → Bool

/-- State threaded through a wrapper: kernel state, the attribute records in memory
(by address) and the calls made so far. -/
structure World (κ : Type) where
  k : κ
  iattrs : Int → iattr
  trace : List Event

/-- A `struct plgfs_context` for an operation with argument record `A`; the result slot
`op_rv` is a machine word (`rv_int` or `rv_dentry`). -/
structure plgfs_context (A : Type) where
  op_id : OpId
  op_args : A
  op_rv : Int

/-- The plugin chain of the mount for one operation kind: `pre` is what
`plgfs_precall_plgs` does to the context (and to attribute records it may reach) and the
value it returns (`0` when a pre-hook signalled "handled"), `post` is what
`plgfs_postcall_plgs` does. -/
structure Hooks (A : Type) where
  pre : plgfs_context A → (Int → iattr) → Int × plgfs_context A × (Int → iattr)
  post : plgfs_context A → (Int → iattr) → plgfs_context A × (Int → iattr)

/-- A call into the kernel: logged, its effect applied, its result returned. -/
def exec {κ : Type} (K : Kernel κ) (e : Event) (w : World κ) : Int × World κ :=
  ((K.call e w.k).1, { w with k := (K.call e w.k).2, trace := w.trace ++ [e] })

/-- A call whose only effect of interest is that it happened (lock operations, logging,
freeing the context). -/
def emit {κ : Type} (e : Event) (w : World κ) : World κ :=
  { w with trace := w.trace ++ [e] }

/-- The call `plgfs_precall_plgs(cont, sbi)`. -/
def plgfs_precall_plgs {κ A : Type} (H : Hooks A) (c : plgfs_context A) (w : World κ) :
    Int × plgfs_context A × World κ :=
  ((H.pre c w.iattrs).1, (H.pre c w.iattrs).2.1,
    { w with
      iattrs := (H.pre c w.iattrs).2.2
      trace := w.trace ++ [Event.plgfs_precall_plgs] })

/-- The call `plgfs_postcall_plgs(cont, sbi)`. -/
def plgfs_postcall_plgs {κ A : Type} (H : Hooks A) (c : plgfs_context A) (w : World κ) :
    plgfs_context A × World κ :=
  ((H.post c w.iattrs).1,
    { w with
      iattrs := (H.post c w.iattrs).2
      trace := w.trace ++ [Event.plgfs_postcall_plgs] })

/-- The assignment `ia->ia_file = f`. -/
def set_ia_file (m : Int → iattr) (ia : Int) (f : Int) : Int → iattr :=
  fun p => if p = ia then { m p with ia_file := f } else m p


structure i_lookup_args where
  dir : Int
  dentry : Int
  flags : Nat

structure i_create_args where
  dir : Int
  dentry : Int
  mode : Nat
  excl : Bool

structure i_setattr_args where
  dentry : Int
  iattr : Int

structure i_unlink_args where
  dir : Int
  dentry : Int

structure i_mkdir_args where
  dir : Int
  dentry : Int
  mode : Nat

structure i_rename_args where
  old_dir : Int
  old_dentry : Int
  new_dir : Int
  new_dentry : Int

/-- The function `plgfs_alloc_ii`. -/
def plgfs_alloc_ii {κ : Type} (K : Kernel κ) (w : World κ) : Int × World κ :=
  let r := exec K Event.kmem_cache_zalloc_ii w
  if r.1 = 0 then (-ENOMEM, r.2)
  else (r.1, emit (Event.mutex_init r.1) r.2)

/-- The function `plgfs_iget(sb, ino)`: maps a backing inode to its visible inode or to an
error pointer. -/
def plgfs_iget {κ : Type} (K : Kernel κ) (sb ino : Int) (w : World κ) : Int × World κ :=
  let ih := ino
  let g := exec K (Event.igrab ih) w
  if g.1 = 0 then (-ESTALE, g.2)
  else
    let l := exec K (Event.iget_locked sb ino) g.2
    let i := l.1
    if i = 0 then (-ENOMEM, (exec K (Event.iput ih) l.2).2)
    else if (K.i_state l.2.k i &&& I_NEW) = 0 then (i, (exec K (Event.iput ih) l.2).2)
    else
      let a := plgfs_alloc_ii K l.2
      if IS_ERR a.1 then (a.1, (exec K (Event.iput ih) a.2).2)
      else
        let w1 := (exec K (Event.set_i_private i a.1) a.2).2
        let w2 := (exec K (Event.set_inode_hidden a.1 ih) w1).2
        let w3 := (exec K (Event.fsstack_copy_attr_all i ih) w2).2
        let w4 := (exec K (Event.fsstack_copy_inode_size i ih) w3).2
        let w5 :=
          if S_ISREG (K.i_mode w4.k i) then (exec K (Event.set_i_op_reg i) w4).2
          else if S_ISDIR (K.i_mode w4.k i) then (exec K (Event.set_i_op_dir i) w4).2
          else w4
        (i, (exec K (Event.unlock_new_inode i) w5).2)

/-- The function `plgfs_dir_iop_lookup(i, d, flags)`. -/
def plgfs_dir_iop_lookup {κ : Type} (K : Kernel κ) (H : Hooks i_lookup_args)
    (i d : Int) (flags : Nat) (w : World κ) : Int × World κ :=
  let a := exec K Event.plgfs_alloc_context w
  if IS_ERR a.1 then (a.1, a.2)
  else
    let c0 : plgfs_context i_lookup_args :=
      { op_id := OpId.PLGFS_DIR_IOP_LOOKUP
        op_args := { dir := i, dentry := d, flags := flags }
        op_rv := K.ctx_rv a.2.k a.1 }
    let p := plgfs_precall_plgs H c0 a.2
    let q : plgfs_context i_lookup_args × World κ :=
      if p.1 = 0 then (p.2.1, p.2.2)
      else
        let c := p.2.1
        let w0 := p.2.2
        let i1 := c.op_args.dir
        let d1 := c.op_args.dentry
        let dph := K.plgfs_dh w0.k (K.d_parent w0.k d1)
        let w1 := emit (Event.mutex_lock (K.d_inode w0.k dph)) w0
        let l := exec K
          (Event.lookup_one_len (K.d_name w1.k d1) dph (K.d_name w1.k d1).length) w1
        let w2 := emit (Event.mutex_unlock (K.d_inode l.2.k dph)) l.2
        let dh := l.1
        if IS_ERR dh then ({ c with op_rv := dh }, w2)
        else
          let di := exec K (Event.plgfs_alloc_di d1 dh) w2
          let w3 := (exec K (Event.set_d_fsdata d1 di.1) di.2).2
          if IS_ERR di.1 then ({ c with op_rv := di.1 }, (exec K (Event.dput dh) w3).2)
          else if K.d_inode w3.k dh = 0 then (c, (exec K (Event.d_add d1 0) w3).2)
          else
            let g := plgfs_iget K (K.i_sb w3.k i1) (K.d_inode w3.k dh) w3
            if IS_ERR g.1 then ({ c with op_rv := g.1 }, g.2)
            else (c, (exec K (Event.d_add d1 g.1) g.2).2)
    let pc := plgfs_postcall_plgs H q.1 q.2
    (pc.1.op_rv, emit (Event.plgfs_free_context a.1) pc.2)

/-- The function `plgfs_dir_iop_create(ip, d, mode, excl)`. -/
def plgfs_dir_iop_create {κ : Type} (K : Kernel κ) (H : Hooks i_create_args)
    (ip d : Int) (mode : Nat) (excl : Bool) (w : World κ) : Int × World κ :=
  let a := exec K Event.plgfs_alloc_context w
  if IS_ERR a.1 then (a.1, a.2)
  else
    let c0 : plgfs_context i_create_args :=
      { op_id := OpId.PLGFS_DIR_IOP_CREATE
        op_args := { dir := ip, dentry := d, mode := mode, excl := excl }
        op_rv := K.ctx_rv a.2.k a.1 }
    let p := plgfs_precall_plgs H c0 a.2
    let q : plgfs_context i_create_args × World κ :=
      if p.1 = 0 then (p.2.1, p.2.2)
      else
        let c := p.2.1
        let w0 := p.2.2
        let ip1 := c.op_args.dir
        let d1 := c.op_args.dentry
        let iph := K.plgfs_ih w0.k ip1
        let dh := K.plgfs_dh w0.k d1
        let w1 := emit (Event.mutex_lock_nested iph) w0
        let r := exec K (Event.vfs_create iph dh c.op_args.mode c.op_args.excl) w1
        let w2 := emit (Event.mutex_unlock iph) r.2
        if r.1 ≠ 0 then ({ c with op_rv := r.1 }, w2)
        else
          let g := plgfs_iget K (K.i_sb w2.k ip1) (K.d_inode w2.k dh) w2
          if IS_ERR g.1 then
            let w3 := emit (Event.mutex_lock_nested iph) g.2
            let u := exec K (Event.vfs_unlink iph dh) w3
            let w4 := emit (Event.mutex_unlock iph) u.2
            let w5 := if u.1 ≠ 0 then emit Event.pr_err w4 else w4
            ({ c with op_rv := g.1 }, w5)
          else
            let w3 := (exec K (Event.fsstack_copy_attr_times ip1 iph) g.2).2
            ({ c with op_rv := r.1 }, (exec K (Event.d_instantiate d1 g.1) w3).2)
    let pc := plgfs_postcall_plgs H q.1 q.2
    (pc.1.op_rv, emit (Event.plgfs_free_context a.1) pc.2)

/-- The function `plgfs_reg_iop_setattr(d, ia)`.  The first component of the value at the
`postcalls` label is the local variable `ia` as it stands there. -/
def plgfs_reg_iop_setattr {κ : Type} (K : Kernel κ) (H : Hooks i_setattr_args)
    (d ia : Int) (w : World κ) : Int × World κ :=
  let a := exec K Event.plgfs_alloc_context w
  if IS_ERR a.1 then (a.1, a.2)
  else
    let c0 : plgfs_context i_setattr_args :=
      { op_id := OpId.PLGFS_REG_IOP_SETATTR
        op_args := { dentry := d, iattr := ia }
        op_rv := K.ctx_rv a.2.k a.1 }
    let f := (a.2.iattrs ia).ia_file
    let p := plgfs_precall_plgs H c0 a.2
    let q : Int × plgfs_context i_setattr_args × World κ :=
      if p.1 = 0 then (ia, p.2.1, p.2.2)
      else
        let c := p.2.1
        let w0 := p.2.2
        let w1 : World κ :=
          if ((w0.iattrs ia).ia_valid &&& ATTR_FILE) ≠ 0 then
            { w0 with iattrs := set_ia_file w0.iattrs ia (K.plgfs_fh w0.k f) }
          else w0
        let d1 := c.op_args.dentry
        let ia1 := c.op_args.iattr
        let dh := K.plgfs_dh w1.k d1
        let w2 := emit (Event.mutex_lock (K.d_inode w1.k dh)) w1
        let r := exec K (Event.notify_change dh ia1 (w2.iattrs ia1)) w2
        let w3 := emit (Event.mutex_unlock (K.d_inode r.2.k dh)) r.2
        let w4 :=
          (exec K (Event.fsstack_copy_attr_all (K.d_inode w3.k d1) (K.d_inode w3.k dh)) w3).2
        let w5 :=
          (exec K (Event.fsstack_copy_inode_size (K.d_inode w4.k d1) (K.d_inode w4.k dh)) w4).2
        (ia1, { c with op_rv := r.1 }, w5)
    let pc := plgfs_postcall_plgs H q.2.1 q.2.2
    let w6 : World κ := { pc.2 with iattrs := set_ia_file pc.2.iattrs q.1 f }
    (pc.1.op_rv, emit (Event.plgfs_free_context a.1) w6)

/-- The function `plgfs_dir_iop_unlink(i, d)`. -/
def plgfs_dir_iop_unlink {κ : Type} (K : Kernel κ) (H : Hooks i_unlink_args)
    (i d : Int) (w : World κ) : Int × World κ :=
  let a := exec K Event.plgfs_alloc_context w
  if IS_ERR a.1 then (a.1, a.2)
  else
    let c0 : plgfs_context i_unlink_args :=
      { op_id := OpId.PLGFS_DIR_IOP_UNLINK
        op_args := { dir := i, dentry := d }
        op_rv := K.ctx_rv a.2.k a.1 }
    let p := plgfs_precall_plgs H c0 a.2
    let q : plgfs_context i_unlink_args × World κ :=
      if p.1 = 0 then (p.2.1, p.2.2)
      else
        let c := p.2.1
        let w0 := p.2.2
        let ih := K.plgfs_ih w0.k c.op_args.dir
        let w1 := emit (Event.mutex_lock_nested ih) w0
        let r := exec K (Event.vfs_unlink ih (K.plgfs_dh w1.k c.op_args.dentry)) w1
        ({ c with op_rv := r.1 }, emit (Event.mutex_unlock ih) r.2)
    let pc := plgfs_postcall_plgs H q.1 q.2
    (pc.1.op_rv, emit (Event.plgfs_free_context a.1) pc.2)


/-- The function `plgfs_dir_iop_mkdir(ip, d, m)`. -/
def plgfs_dir_iop_mkdir {κ : Type} (K : Kernel κ) (H : Hooks i_mkdir_args)
    (ip d : Int) (m : Nat) (w : World κ) : Int × World κ :=
  let a := exec K Event.plgfs_alloc_context w
  if IS_ERR a.1 then (a.1, a.2)
  else
    let c0 : plgfs_context i_mkdir_args :=
      { op_id := OpId.PLGFS_DIR_IOP_MKDIR
        op_args := { dir := ip, dentry := d, mode := m }
        op_rv := K.ctx_rv a.2.k a.1 }
    let p := plgfs_precall_plgs H c0 a.2
    let q : plgfs_context i_mkdir_args × World κ :=
      if p.1 = 0 then (p.2.1, p.2.2)
      else
        let c := p.2.1
        let w0 := p.2.2
        let ip1 := c.op_args.dir
        let d1 := c.op_args.dentry
        let iph := K.plgfs_ih w0.k ip1
        let dh := K.plgfs_dh w0.k d1
        let w1 := emit (Event.mutex_lock_nested iph) w0
        let r := exec K (Event.vfs_mkdir iph dh c.op_args.mode) w1
        let w2 := emit (Event.mutex_unlock iph) r.2
        if r.1 ≠ 0 then ({ c with op_rv := r.1 }, w2)
        else
          let g := plgfs_iget K (K.i_sb w2.k ip1) (K.d_inode w2.k dh) w2
          if IS_ERR g.1 then
            let w3 := emit (Event.mutex_lock_nested iph) g.2
            let u := exec K (Event.vfs_unlink iph dh) w3
            let w4 := emit (Event.mutex_unlock iph) u.2
            let w5 := if u.1 ≠ 0 then emit Event.pr_err w4 else w4
            ({ c with op_rv := g.1 }, w5)
          else ({ c with op_rv := r.1 }, (exec K (Event.d_instantiate d1 g.1) g.2).2)
    let pc := plgfs_postcall_plgs H q.1 q.2
    (pc.1.op_rv, emit (Event.plgfs_free_context a.1) pc.2)

/-- The function `plgfs_dir_iop_rmdir(ip, d)`.  It fills the `i_mkdir` member of the
argument union and leaves its `mode` slot as allocated. -/
def plgfs_dir_iop_rmdir {κ : Type} (K : Kernel κ) (H : Hooks i_mkdir_args)
    (ip d : Int) (w : World κ) : Int × World κ :=
  let a := exec K Event.plgfs_alloc_context w
  if IS_ERR a.1 then (a.1, a.2)
  else
    let c0 : plgfs_context i_mkdir_args :=
      { op_id := OpId.PLGFS_DIR_IOP_RMDIR
        op_args := { dir := ip, dentry := d, mode := K.ctx_mode a.2.k a.1 }
        op_rv := K.ctx_rv a.2.k a.1 }
    let p := plgfs_precall_plgs H c0 a.2
    let q : plgfs_context i_mkdir_args × World κ :=
      if p.1 = 0 then (p.2.1, p.2.2)
      else
        let c := p.2.1
        let w0 := p.2.2
        let ip1 := c.op_args.dir
        let d1 := c.op_args.dentry
        let iph := K.plgfs_ih w0.k ip1
        let w1 := emit (Event.mutex_lock_nested iph) w0
        let r := exec K (Event.vfs_rmdir (K.plgfs_ih w1.k ip1) (K.plgfs_dh w1.k d1)) w1
        ({ c with op_rv := r.1 }, emit (Event.mutex_unlock iph) r.2)
    let pc := plgfs_postcall_plgs H q.1 q.2
    (pc.1.op_rv, emit (Event.plgfs_free_context a.1) pc.2)

/-- The function `plgfs_dir_iop_rename(oi, od, ni, nd)`. -/
def plgfs_dir_iop_rename {κ : Type} (K : Kernel κ) (H : Hooks i_rename_args)
    (oi od ni nd : Int) (w : World κ) : Int × World κ :=
  let a := exec K Event.plgfs_alloc_context w
  if IS_ERR a.1 then (a.1, a.2)
  else
    let c0 : plgfs_context i_rename_args :=
      { op_id := OpId.PLGFS_DIR_IOP_RENAME
        op_args := { old_dir := oi, old_dentry := od, new_dir := ni, new_dentry := nd }
        op_rv := K.ctx_rv a.2.k a.1 }
    let p := plgfs_precall_plgs H c0 a.2
    let q : plgfs_context i_rename_args × World κ :=
      if p.1 = 0 then (p.2.1, p.2.2)
      else
        let c := p.2.1
        let w0 := p.2.2
        let oih := K.plgfs_ih w0.k c.op_args.old_dir
        let odh := K.plgfs_dh w0.k c.op_args.old_dentry
        let nih := K.plgfs_ih w0.k c.op_args.new_dir
        let ndh := K.plgfs_dh w0.k c.op_args.new_dentry
        let t := exec K (Event.lock_rename (K.d_parent w0.k ndh) (K.d_parent w0.k odh)) w0
        let trap := t.1
        let r : plgfs_context i_rename_args × World κ :=
          if trap = odh then ({ c with op_rv := -EINVAL }, t.2)
          else if trap = ndh then ({ c with op_rv := -ENOTEMPTY }, t.2)
          else
            let v := exec K (Event.vfs_rename oih odh nih ndh) t.2
            ({ c with op_rv := v.1 }, v.2)
        (r.1, emit (Event.unlock_rename (K.d_parent r.2.k ndh) (K.d_parent r.2.k odh)) r.2)
    let pc := plgfs_postcall_plgs H q.1 q.2
    (pc.1.op_rv, emit (Event.plgfs_free_context a.1) pc.2)

structure d_release_args where
  dentry : Int

structure d_revalidate_args where
  dentry : Int
  flags : Nat

structure d_hash_args where
  dentry : Int
  str : Int

structure d_compare_args where
  parent : Int
  dentry : Int
  len : Nat
  str : List Nat
  name : qstr

/-- The test `IS_ROOT(d)`: `d == d->d_parent`. -/
def IS_ROOT {κ : Type} (K : Kernel κ) (k : κ) (d : Int) : Bool := decide (d = K.d_parent k d)

/-- The function `plgfs_d_release(d)`. -/
def plgfs_d_release {κ : Type} (K : Kernel κ) (H : Hooks d_release_args)
    (d : Int) (w : World κ) : World κ :=
  let di := K.plgfs_di w.k d
  let a := exec K Event.plgfs_alloc_context w
  if IS_ERR a.1 then
    let w1 :=
      if !IS_ROOT K a.2.k d then (exec K (Event.dput (K.plgfs_dh a.2.k d)) a.2).2 else a.2
    let w2 := (exec K (Event.kmem_cache_free_di di) w1).2
    emit Event.pr_err w2
  else
    let c0 : plgfs_context d_release_args :=
      { op_id := OpId.PLGFS_DOP_D_RELEASE
        op_args := { dentry := d }
        op_rv := K.ctx_rv a.2.k a.1 }
    let p := plgfs_precall_plgs H c0 a.2
    let w1 := (exec K (Event.dput (K.plgfs_dh p.2.2.k d)) p.2.2).2
    let pc := plgfs_postcall_plgs H p.2.1 w1
    let w2 := (exec K (Event.kmem_cache_free_di di) pc.2).2
    emit (Event.plgfs_free_context a.1) w2

/-- The function `plgfs_d_revalidate(d, flags)`. -/
def plgfs_d_revalidate {κ : Type} (K : Kernel κ) (H : Hooks d_revalidate_args)
    (d : Int) (flags : Nat) (w : World κ) : Int × World κ :=
  let a := exec K Event.plgfs_alloc_context_atomic w
  if IS_ERR a.1 then (a.1, a.2)
  else
    let c0 : plgfs_context d_revalidate_args :=
      { op_id := OpId.PLGFS_DOP_D_REVALIDATE
        op_args := { dentry := d, flags := flags }
        op_rv := K.ctx_rv a.2.k a.1 }
    let p := plgfs_precall_plgs H c0 a.2
    let q : plgfs_context d_revalidate_args × World κ :=
      if p.1 = 0 then (p.2.1, p.2.2)
      else
        let c := p.2.1
        let w0 := p.2.2
        let dh := K.plgfs_dh w0.k c.op_args.dentry
        if (K.d_flags w0.k dh &&& DCACHE_OP_REVALIDATE) = 0 then ({ c with op_rv := 1 }, w0)
        else
          let r := exec K (Event.d_op_d_revalidate dh c.op_args.flags) w0
          ({ c with op_rv := r.1 }, r.2)
    let pc := plgfs_postcall_plgs H q.1 q.2
    (pc.1.op_rv, emit (Event.plgfs_free_context a.1) pc.2)

/-- The function `plgfs_d_hash(d, s)`. -/
def plgfs_d_hash {κ : Type} (K : Kernel κ) (H : Hooks d_hash_args)
    (d s : Int) (w : World κ) : Int × World κ :=
  let a := exec K Event.plgfs_alloc_context_atomic w
  if IS_ERR a.1 then (a.1, a.2)
  else
    let c0 : plgfs_context d_hash_args :=
      { op_id := OpId.PLGFS_DOP_D_HASH
        op_args := { dentry := d, str := s }
        op_rv := K.ctx_rv a.2.k a.1 }
    let p := plgfs_precall_plgs H c0 a.2
    let q : plgfs_context d_hash_args × World κ :=
      if p.1 = 0 then (p.2.1, p.2.2)
      else
        let c := p.2.1
        let w0 := p.2.2
        let dh := K.plgfs_dh w0.k c.op_args.dentry
        if (K.d_flags w0.k dh &&& DCACHE_OP_HASH) = 0 then ({ c with op_rv := 0 }, w0)
        else
          let r := exec K (Event.d_op_d_hash dh c.op_args.str) w0
          ({ c with op_rv := r.1 }, r.2)
    let pc := plgfs_postcall_plgs H q.1 q.2
    (pc.1.op_rv, emit (Event.plgfs_free_context a.1) pc.2)

/-- The library routine `strncmp(cs, ct, count)` of the kernel: bytes are compared one by
one until they differ, a NUL has been compared, or `count` bytes have been compared.  A
string is given by its bytes; the byte following them is its terminating NUL. -/
def strncmp (cs ct : List Nat) : Nat → Int
  | 0 => 0
  | count + 1 =>
    if cs.headD 0 ≠ ct.headD 0 then (if cs.headD 0 < ct.headD 0 then -1 else 1)
    else if cs.headD 0 = 0 then 0
    else strncmp cs.tail ct.tail count

/-- The function `plgfs_d_compare(dp, d, len, str, name)`. -/
def plgfs_d_compare {κ : Type} (K : Kernel κ) (H : Hooks d_compare_args)
    (dp d : Int) (len : Nat) (str : List Nat) (name : qstr) (w : World κ) : Int × World κ :=
  let a := exec K Event.plgfs_alloc_context_atomic w
  if IS_ERR a.1 then (a.1, a.2)
  else
    let c0 : plgfs_context d_compare_args :=
      { op_id := OpId.PLGFS_DOP_D_COMPARE
        op_args := { parent := dp, dentry := d, len := len, str := str, name := name }
        op_rv := K.ctx_rv a.2.k a.1 }
    let p := plgfs_precall_plgs H c0 a.2
    let q : plgfs_context d_compare_args × World κ :=
      if p.1 = 0 then (p.2.1, p.2.2)
      else
        let c := p.2.1
        let w0 := p.2.2
        let dph := K.plgfs_dh w0.k c.op_args.parent
        let dh := K.plgfs_dh w0.k c.op_args.dentry
        if (K.d_flags w0.k dh &&& DCACHE_OP_COMPARE) = 0 then
          if c.op_args.len ≠ c.op_args.name.len then ({ c with op_rv := 1 }, w0)
          else
            ({ c with op_rv := strncmp c.op_args.str c.op_args.name.name c.op_args.len }, w0)
        else
          let r := exec K
            (Event.d_op_d_compare dph dh c.op_args.len c.op_args.str c.op_args.name) w0
          ({ c with op_rv := r.1 }, r.2)
    let pc := plgfs_postcall_plgs H q.1 q.2
    (pc.1.op_rv, emit (Event.plgfs_free_context a.1) pc.2)


/-- Calls made by `plgfs_iget` and `plgfs_alloc_ii`. -/
def Event.is_iget : Event → Bool
  | .igrab _ => true
  | .iget_locked _ _ => true
  | .iput _ => true
  | .kmem_cache_zalloc_ii => true
  | .mutex_init _ => true
  | .set_i_private _ _ => true
  | .set_inode_hidden _ _ => true
  | .fsstack_copy_attr_all _ _ => true
  | .fsstack_copy_inode_size _ _ => true
  | .set_i_op_reg _ => true
  | .set_i_op_dir _ => true
  | .unlock_new_inode _ => true
  | _ => false

/-- The world `w1` extends `w` by calls of identity mapping only. -/
def IgetExt {κ : Type} (w w1 : World κ) : Prop :=
  (∃ evs, w1.trace = w.trace ++ evs ∧ ∀ e ∈ evs, e.is_iget = true) ∧ w1.iattrs = w.iattrs

/-- Outcome of a wrapper whose pre-hook chain signalled "handled": the value returned is
the result slot after the post-hook chain ran on the context the pre-hook chain left, the
calls made are the context allocation, the two hook chains and the release of the
context, and the kernel state is the one left by the allocation. -/
def Handled {κ A : Type} (K : Kernel κ) (H : Hooks A) (c0 : plgfs_context A) (w : World κ)
    (alloc : Event) (r : Int × World κ) : Prop :=
  r.1 = (H.post (H.pre c0 w.iattrs).2.1 (H.pre c0 w.iattrs).2.2).1.op_rv ∧
  r.2.trace = w.trace ++ [alloc, Event.plgfs_precall_plgs, Event.plgfs_postcall_plgs,
    Event.plgfs_free_context (K.call alloc w.k).1] ∧
  r.2.k = (K.call alloc w.k).2

/-- State of a small backing filesystem used to run the wrappers on concrete inputs:
parent links, which backing entries exist, whether context allocation and `igrab` fail,
and the trap `lock_rename` reports. -/
structure Toy where
  parent : Int → Int
  entry : Int → Bool
  alloc_fails : Bool
  igrab_fails : Bool
  trap : Int

/-- Effect of the calls on the small filesystem: create and unlink add and remove the
entry, a rename succeeds and exchanges the parents of the source and the destination
entry as `d_move` does, everything else succeeds without effect. -/
def toy_call (e : Event) (s : Toy) : Int × Toy :=
  match e with
  | .plgfs_alloc_context => (if s.alloc_fails then -ENOMEM else 4096, s)
  | .plgfs_alloc_context_atomic => (if s.alloc_fails then -ENOMEM else 4096, s)
  | .vfs_create _ dh _ _ =>
    (0, { s with entry := fun x => if x = dh then true else s.entry x })
  | .vfs_unlink _ dh =>
    (0, { s with entry := fun x => if x = dh then false else s.entry x })
  | .vfs_rename _ odh _ ndh =>
    (0, { s with
          parent := fun x =>
            if x = odh then s.parent ndh
            else if x = ndh then s.parent odh
            else s.parent x })
  | .lock_rename _ _ => (s.trap, s)
  | .igrab ih => (if s.igrab_fails then 0 else ih, s)
  | .iget_locked _ ino => (ino + 1, s)
  | _ => (0, s)

/-- The small filesystem as a `Kernel`: the backing counterpart of the object at address
`x` lives at `x + 100`, the shadow record of a dentry at `x + 200`, the inode of a dentry
at `x + 1000`. -/
def toy : Kernel Toy where
  call := toy_call
  d_parent := fun s d => s.parent d
  d_inode := fun _ d => d + 1000
  d_name := fun _ _ => [120]
  d_flags := fun _ _ => 0
  i_sb := fun _ _ => 1
  i_state := fun _ _ => 0
  i_mode := fun _ _ => 0
  plgfs_dh := fun _ d => d + 100
  plgfs_ih := fun _ i => i + 100
  plgfs_fh := fun _ f => f + 100
  plgfs_di := fun _ d => d + 200
  ctx_rv := fun _ _ => 0
  ctx_mode := fun _ _ => 0
  present := fun s d => s.entry d

/-- Directories live at multiples of ten and contain the nine following addresses; a
directory is its own parent. -/
def toy_state : Toy where
  parent := fun x => x / 10 * 10
  entry := fun _ => false
  alloc_fails := false
  igrab_fails := false
  trap := 0

/-- World with the caller's attribute record at address 100 (visible file handle 5,
`ATTR_FILE` set) and a second record at address 200 (file handle 77, `ATTR_FILE` set). -/
def toy_world (s : Toy) : World Toy where
  k := s
  iattrs := fun p => if p = 100 then { ia_valid := ATTR_FILE, ia_file := 5 }
    else { ia_valid := ATTR_FILE, ia_file := 77 }
  trace := []

/-- A plugin chain without effect. -/
def hooks_pass (A : Type) : Hooks A where
  pre := fun c m => (1, c, m)
  post := fun c m => (c, m)

/-- A plugin chain whose pre-hook signals "handled" with `-EACCES`. -/
def hooks_handled (A : Type) : Hooks A where
  pre := fun c m => (0, { c with op_rv := -EACCES }, m)
  post := fun c m => (c, m)

/-- A plugin chain whose pre-hook points the attribute-record argument of the context to
the record at address 200 and lets the call proceed. -/
def hooks_replace_ia : Hooks i_setattr_args where
  pre := fun c m => (1, { c with op_args := { c.op_args with iattr := 200 } }, m)
  post := fun c m => (c, m)

end Ops

/-! ## Proofs: directory tree walker -/

namespace Walk

theorem dentry_size_eq (d : dentry) : d.size = 1 + sizeList d.d_subdirs := by
  cases d
  simp [dentry.size, dentry.d_subdirs]

theorem sizeList_append (xs ys : List dentry) :
    sizeList (xs ++ ys) = sizeList xs + sizeList ys := by
  induction xs with
  | nil => simp [sizeList]
  | cons x xs ih => simp [sizeList, ih, Nat.add_assoc]

theorem acquired_append (a b : List Event) : acquired (a ++ b) = acquired a ++ acquired b := by
  simp [acquired]

theorem released_append (a b : List Event) : released (a ++ b) = released a ++ released b := by
  simp [released]

theorem enqueued_append (a b : List Event) : enqueued (a ++ b) = enqueued a ++ enqueued b := by
  simp [enqueued]

theorem dequeued_append (a b : List Event) : dequeued (a ++ b) = dequeued a ++ dequeued b := by
  simp [dequeued]

theorem called_append (a b : List Event) : called (a ++ b) = called a ++ called b := by
  simp [called]

theorem walk_lock_depth_append (a b : List Event) :
    walk_lock_depth (a ++ b) = walk_lock_depth a + walk_lock_depth b := by
  simp [walk_lock_depth]

theorem child_events_proj (cs : List dentry) :
    acquired (child_events cs) = cs.map dentry.id ∧
    enqueued (child_events cs) = cs.map dentry.id ∧
    released (child_events cs) = [] ∧
    dequeued (child_events cs) = [] ∧
    called (child_events cs) = [] ∧
    walk_lock_depth (child_events cs) = 0 := by
  induction cs with
  | nil => simp [child_events, acquired, enqueued, released, dequeued, called, walk_lock_depth]
  | cons c cs ih =>
    obtain ⟨h1, h2, h3, h4, h5, h6⟩ := ih
    simp only [acquired, enqueued, released, dequeued, called, walk_lock_depth] at *
    simp [child_events, Event.acq, Event.enq, Event.rel, Event.deq, Event.call,
      Event.walk_lock, h1, h2, h3, h4, h5, h6]

theorem drain_events_proj (cs : List dentry) :
    acquired (drain_events cs) = [] ∧
    enqueued (drain_events cs) = [] ∧
    released (drain_events cs) = cs.map dentry.id ∧
    dequeued (drain_events cs) = cs.map dentry.id ∧
    called (drain_events cs) = [] ∧
    walk_lock_depth (drain_events cs) = 0 := by
  induction cs with
  | nil => simp [drain_events, acquired, enqueued, released, dequeued, called, walk_lock_depth]
  | cons c cs ih =>
    obtain ⟨h1, h2, h3, h4, h5, h6⟩ := ih
    simp only [acquired, enqueued, released, dequeued, called, walk_lock_depth] at *
    simp [drain_events, Event.acq, Event.enq, Event.rel, Event.deq, Event.call,
      Event.walk_lock, h1, h2, h3, h4, h5, h6]

theorem enqueue_children_eq {σ : Type} (cs : List dentry) (st : State σ) :
    enqueue_children cs st =
      { st with walk := st.walk ++ cs, trace := st.trace ++ child_events cs } := by
  induction cs generalizing st with
  | nil => simp [enqueue_children, child_events]
  | cons c cs ih => simp [enqueue_children, child_events, ih]

/-- Visiting the head without enumerating children keeps the accounting. -/
theorem LoopInv_skip_plain {σ : Type} (st : State σ) (dp : dentry) (rest : List dentry)
    (v : Int) (s : σ) (hw : st.walk = dp :: rest) (h : LoopInv st) :
    LoopInv (skip dp { st with data := s, trace := st.trace ++ [Event.cb dp.id v] }) ∧
    (skip dp { st with data := s, trace := st.trace ++ [Event.cb dp.id v] }).walk = rest := by
  obtain ⟨h1, h2, h3, h4, h5⟩ := h
  rw [hw] at h1 h2
  refine ⟨⟨?_, ?_, ?_, ?_, ?_⟩, ?_⟩
  · simp [skip, hw, acquired_append, released_append, h1]
    simp [acquired, released, Event.acq, Event.rel]
  · simp [skip, hw, enqueued_append, dequeued_append, h2]
    simp [enqueued, dequeued, Event.enq, Event.deq]
  · simp [skip, dequeued_append, released_append, h3]
    simp [dequeued, released, Event.deq, Event.rel]
  · simp [skip, called_append, released_append, h4]
    simp [called, released, Event.call, Event.rel]
  · simp [skip, walk_lock_depth_append, h5]
    simp [walk_lock_depth, Event.walk_lock]
  · simp [skip, hw]

/-- Visiting the head and enumerating its children keeps the accounting. -/
theorem LoopInv_skip_enum {σ : Type} (st : State σ) (dp : dentry) (rest : List dentry)
    (v : Int) (s : σ) (hw : st.walk = dp :: rest) (h : LoopInv st) :
    let st1 : State σ := { st with data := s, trace := st.trace ++ [Event.cb dp.id v] }
    let st2 : State σ :=
      { st1 with trace := st1.trace ++ [Event.mutex_lock_i dp.id, Event.spin_lock dp.id] }
    let st3 := enqueue_children dp.d_subdirs st2
    let st4 : State σ :=
      { st3 with trace := st3.trace ++ [Event.spin_unlock dp.id, Event.mutex_unlock_i dp.id] }
    LoopInv (skip dp st4) ∧ (skip dp st4).walk = rest ++ dp.d_subdirs := by
  obtain ⟨h1, h2, h3, h4, h5⟩ := h
  rw [hw] at h1 h2
  obtain ⟨c1, c2, c3, c4, c5, c6⟩ := child_events_proj dp.d_subdirs
  intro st1 st2 st3 st4
  have e : skip dp st4 =
      { walk := rest ++ dp.d_subdirs, data := s,
        trace := st.trace ++ [Event.cb dp.id v] ++
          [Event.mutex_lock_i dp.id, Event.spin_lock dp.id] ++ child_events dp.d_subdirs ++
          [Event.spin_unlock dp.id, Event.mutex_unlock_i dp.id] ++
          [Event.list_del_init dp.id, Event.dput dp.id] } := by
    simp [st4, st3, st2, st1, skip, enqueue_children_eq, hw]
  rw [e]
  refine ⟨⟨?_, ?_, ?_, ?_, ?_⟩, rfl⟩
  · simp only [acquired_append, released_append, h1, c1, c3]
    simp [acquired, released, Event.acq, Event.rel]
  · simp only [enqueued_append, dequeued_append, h2, c2, c4]
    simp [enqueued, dequeued, Event.enq, Event.deq]
  · simp only [dequeued_append, released_append, h3, c3, c4]
    simp [dequeued, released, Event.deq, Event.rel]
  · simp only [called_append, released_append, h4, c3, c5]
    simp [called, released, Event.call, Event.rel]
  · simp only [walk_lock_depth_append, h5, c6]
    simp [walk_lock_depth, Event.walk_lock]

/-- With one unit of fuel per pending subtree entry plus one, the loop terminates and
leaves in one of the two ways described by `LoopPost`. -/
theorem walk_loop_post {σ : Type} (cb : dentry → σ → Int → Int × σ) (id : Int) :
    ∀ (fuel : Nat) (rv : Int) (st : State σ), 0 ≤ rv → LoopInv st →
      sizeList st.walk < fuel →
      ∃ rv1 st1, walk_loop cb id fuel rv st = some (rv1, st1) ∧ LoopPost rv1 st1 := by
  intro fuel
  induction fuel with
  | zero => intro rv st _ _ h; omega
  | succ fuel ih =>
    intro rv st hrv hinv hfuel
    obtain ⟨w, dat, tr⟩ := st
    cases w with
    | nil =>
      exact ⟨rv, _, by simp [walk_loop], Or.inl ⟨hrv, rfl, hinv⟩⟩
    | cons dp rest =>
      have hw : (State.mk (dp :: rest) dat tr).walk = dp :: rest := rfl
      have hsz := dentry_size_eq dp
      simp only [sizeList] at hfuel
      by_cases hpos : (cb dp dat id).1 > 0
      · obtain ⟨hi, hwalk⟩ :=
          LoopInv_skip_plain _ dp rest (cb dp dat id).1 (cb dp dat id).2 hw hinv
        obtain ⟨rv1, st1, h1, h2⟩ := ih (cb dp dat id).1 _ (by omega) hi
          (by rw [hwalk]; omega)
        exact ⟨rv1, st1, by simpa [walk_loop, hpos] using h1, h2⟩
      · by_cases hneg : (cb dp dat id).1 < 0
        · refine ⟨(cb dp dat id).1, _, by simp [walk_loop, hpos, hneg]; rfl, ?_⟩
          exact Or.inr ⟨hneg, _, hinv, dp, rest, hw, rfl, rfl⟩
        · cases hino : dp.d_inode with
          | none =>
            obtain ⟨hi, hwalk⟩ :=
              LoopInv_skip_plain _ dp rest (cb dp dat id).1 (cb dp dat id).2 hw hinv
            obtain ⟨rv1, st1, h1, h2⟩ := ih (cb dp dat id).1 _ (by omega) hi
              (by rw [hwalk]; omega)
            exact ⟨rv1, st1, by simpa [walk_loop, hpos, hneg, hino] using h1, h2⟩
          | some mode =>
            by_cases hdir : S_ISDIR mode = true
            · obtain ⟨hi, hwalk⟩ :=
                LoopInv_skip_enum _ dp rest (cb dp dat id).1 (cb dp dat id).2 hw hinv
              obtain ⟨rv1, st1, h1, h2⟩ := ih (cb dp dat id).1 _ (by omega) hi
                (by rw [hwalk, sizeList_append]; omega)
              exact ⟨rv1, st1, by simpa [walk_loop, hpos, hneg, hino, hdir] using h1, h2⟩
            · obtain ⟨hi, hwalk⟩ :=
                LoopInv_skip_plain _ dp rest (cb dp dat id).1 (cb dp dat id).2 hw hinv
              obtain ⟨rv1, st1, h1, h2⟩ := ih (cb dp dat id).1 _ (by omega) hi
                (by rw [hwalk]; omega)
              exact ⟨rv1, st1, by simpa [walk_loop, hpos, hneg, hino, hdir] using h1, h2⟩


/-- Reference accounting of a complete run that got past the two argument checks. -/
theorem walk_run_accounting {σ : Type} (PLGFS_MAGIC s_magic : Nat) (id : Int)
    (cb : dentry → σ → Int → Int × σ) (root : dentry) (data : σ)
    (hm : s_magic = PLGFS_MAGIC) (hid : 0 ≤ id) :
    ∃ rv st, plgfs_walk_dtree PLGFS_MAGIC s_magic id cb root data = some (rv, st) ∧
      acquired st.trace = released st.trace ∧
      enqueued st.trace = dequeued st.trace ∧
      enqueued st.trace = released st.trace ∧
      st.walk = [] ∧
      walk_lock_depth st.trace = 0 ∧
      (∃ rest, released st.trace = called st.trace ++ rest ∧ (0 ≤ rv → rest = [])) ∧
      (rv < 0 → ∃ pre dp pending,
        st.trace = pre ++ Event.cb dp.id rv ::
          (drain_events (dp :: pending) ++ [Event.mutex_unlock_walk]) ∧
        acquired pre = released pre ++ (dp :: pending).map dentry.id ∧
        called pre = released pre) := by
  have hinv0 : LoopInv (σ := σ)
      { walk := [root], data := data,
        trace := [Event.mutex_lock_walk, Event.dget root.id, Event.list_add_tail root.id] } := by
    constructor <;>
      simp [acquired, released, enqueued, dequeued, called, walk_lock_depth, Event.acq,
        Event.rel, Event.enq, Event.deq, Event.call, Event.walk_lock]
  obtain ⟨rv1, st1, hrun, hpost⟩ :=
    walk_loop_post cb id (root.size + 1) 0 _ (le_refl 0) hinv0
      (by simp [sizeList])
  have hnid : ¬ id < 0 := by omega
  refine ⟨rv1, _, by simp [plgfs_walk_dtree, hm, hnid, hrun]; rfl, ?_⟩
  rcases hpost with ⟨hrv, hwalk, h1, h2, h3, h4, h5⟩ | ⟨hrv, st0, ⟨h1, h2, h3, h4, h5⟩, dp, pending, hw0, hw1, htr⟩
  · rw [hwalk] at h1 h2
    simp only [List.map_nil, List.append_nil] at h1 h2
    refine ⟨?_, ?_, ?_, rfl, ?_, ⟨[], ?_, fun _ => rfl⟩, fun h => absurd h (by omega)⟩
    · simp [drain, hwalk, drain_events, acquired_append, released_append, h1]
      simp [acquired, released, Event.acq, Event.rel]
    · simp [drain, hwalk, drain_events, enqueued_append, dequeued_append, h2]
      simp [enqueued, dequeued, Event.enq, Event.deq]
    · simp [drain, hwalk, drain_events, enqueued_append, released_append, h2, h3]
      simp [enqueued, released, Event.enq, Event.rel]
    · simp [drain, hwalk, drain_events, walk_lock_depth_append, h5]
      simp [walk_lock_depth, Event.walk_lock]
    · simp [drain, hwalk, drain_events, called_append, released_append, h4]
      simp [called, released, Event.call, Event.rel]
  · rw [hw0] at h1 h2
    obtain ⟨c1, c2, c3, c4, c5, c6⟩ := drain_events_proj (dp :: pending)
    have etr : (drain st1).trace ++ [Event.mutex_unlock_walk] =
        st0.trace ++ [Event.cb dp.id rv1] ++ drain_events (dp :: pending) ++
          [Event.mutex_unlock_walk] := by
      simp [drain, hw1, htr]
    refine ⟨?_, ?_, ?_, rfl, ?_, ⟨pending.map dentry.id, ?_, fun h => absurd h (by omega)⟩,
      fun _ => ⟨st0.trace, dp, pending, by simp [etr], h1, h4⟩⟩
    · simp only [etr, acquired_append, released_append, h1, c1, c3]
      simp [acquired, released, Event.acq, Event.rel]
    · simp only [etr, enqueued_append, dequeued_append, h2, c2, c4]
      simp [enqueued, dequeued, Event.enq, Event.deq]
    · simp only [etr, enqueued_append, released_append, h2, h3, c2, c3]
      simp [enqueued, released, Event.enq, Event.rel]
    · simp only [etr, walk_lock_depth_append, h5, c6]
      simp [walk_lock_depth, Event.walk_lock]
    · simp only [etr, called_append, released_append, h4, c3, c5]
      simp [called, released, Event.call, Event.rel]

/-- C2: for every tree, root, callback (with arbitrary private state) and outcome of the
two argument checks, `plgfs_walk_dtree` returns; the references it took (`dget`,
`dget_dlock`) are, in order, exactly the references it dropped (`dput`), so the counts
agree; every node linked into the pending list was unlinked and released once, in the
same order; the pending list is empty at return; the callback ran only on an initial
segment of the released nodes; and when the callback aborts on a node `dp`, the remainder
of the run consists of unlinking and releasing `dp` and the nodes still pending, without
any further callback, followed by the unlock of the walk mutex. -/
theorem plgfs_walk_dtree_refs_balanced {σ : Type} (PLGFS_MAGIC s_magic : Nat) (id : Int)
    (cb : dentry → σ → Int → Int × σ) (root : dentry) (data : σ) :
    ∃ rv st, plgfs_walk_dtree PLGFS_MAGIC s_magic id cb root data = some (rv, st) ∧
      (acquired st.trace).length = (released st.trace).length ∧
      acquired st.trace = released st.trace ∧
      enqueued st.trace = dequeued st.trace ∧
      enqueued st.trace = released st.trace ∧
      st.walk = [] ∧
      (∃ rest, released st.trace = called st.trace ++ rest ∧ (0 ≤ rv → rest = [])) ∧
      (rv < 0 → st.trace ≠ [] → ∃ pre dp pending,
        st.trace = pre ++ Event.cb dp.id rv ::
          (drain_events (dp :: pending) ++ [Event.mutex_unlock_walk]) ∧
        acquired pre = released pre ++ (dp :: pending).map dentry.id ∧
        called pre = released pre) := by
  by_cases hm : s_magic = PLGFS_MAGIC
  · by_cases hid : 0 ≤ id
    · obtain ⟨rv, st, h0, h1, h2, h3, h4, _, h6, h7⟩ :=
        walk_run_accounting PLGFS_MAGIC s_magic id cb root data hm hid
      exact ⟨rv, st, h0, by rw [h1], h1, h2, h3, h4, h6, fun h _ => h7 h⟩
    · have hlt : id < 0 := by omega
      refine ⟨-EINVAL, _, by simp [plgfs_walk_dtree, hm, hlt]; rfl, ?_⟩
      simp [acquired, released, enqueued, dequeued, called]
  · refine ⟨-EINVAL, _, by simp [plgfs_walk_dtree, hm]; rfl, ?_⟩
    simp [acquired, released, enqueued, dequeued, called]


theorem id_mk (i : Nat) (m : Option Nat) (cs : List dentry) : (dentry.mk i m cs).id = i := rfl

theorem d_inode_mk (i : Nat) (m : Option Nat) (cs : List dentry) :
    (dentry.mk i m cs).d_inode = m := rfl

theorem d_subdirs_mk (i : Nat) (m : Option Nat) (cs : List dentry) :
    (dentry.mk i m cs).d_subdirs = cs := rfl

/-- C3 (as stated, refuted): on the root with the two children "a" (address 1) and "b"
(address 2) and a callback aborting on "b", the callback is not invoked exactly on "a"
then "b": the walk starts by invoking it on the root itself, so it runs three times, on
the root, on "a" and on "b". -/
theorem plgfs_walk_dtree_root_ab_calls :
    (plgfs_walk_dtree 7 7 0 cb_abort_on_2 root_ab 0).map (fun r => called r.2.trace)
        = some [0, 1, 2] ∧
    ¬ ∃ rv st, plgfs_walk_dtree 7 7 0 cb_abort_on_2 root_ab 0 = some (rv, st) ∧
        called st.trace = [1, 2] := by
  have h : (plgfs_walk_dtree 7 7 0 cb_abort_on_2 root_ab 0).map (fun r => called r.2.trace)
      = some [0, 1, 2] := by decide
  refine ⟨h, ?_⟩
  rintro ⟨rv, st, hrun, hc⟩
  rw [hrun] at h
  simp [hc] at h

/-- C3 (amended): for a root directory whose children are exactly `a` and `b`, in that
order, and a callback that continues on the root and on `a` and aborts on `b`,
`plgfs_walk_dtree` invokes the callback exactly three times, on the root, on `a` and on
`b` in this order, returns the value the callback returned on `b`, has released every
reference it took, leaves the pending list empty and has released the walk mutex. -/
theorem plgfs_walk_dtree_abort_on_second_child {σ : Type} (PLGFS_MAGIC s_magic : Nat)
    (id : Int) (cb : dentry → σ → Int → Int × σ) (rid mode : Nat) (a b : dentry) (data : σ)
    (hm : s_magic = PLGFS_MAGIC) (hid : 0 ≤ id) (hdir : S_ISDIR mode = true)
    (hroot : ∀ s, (cb (dentry.mk rid (some mode) [a, b]) s id).1 = 0)
    (ha : ∀ s, (cb a s id).1 = 0) (hb : ∀ s, (cb b s id).1 < 0) :
    ∃ rv st,
      plgfs_walk_dtree PLGFS_MAGIC s_magic id cb (dentry.mk rid (some mode) [a, b]) data
        = some (rv, st) ∧
      called st.trace = [rid, a.id, b.id] ∧
      rv = (cb b (cb a (cb (dentry.mk rid (some mode) [a, b]) data id).2 id).2 id).1 ∧
      rv < 0 ∧
      acquired st.trace = released st.trace ∧
      st.walk = [] ∧
      walk_lock_depth st.trace = 0 := by
  obtain ⟨rv, st, hrun, hacq, _, _, hwalk, hdepth, _, _⟩ :=
    walk_run_accounting PLGFS_MAGIC s_magic id cb (dentry.mk rid (some mode) [a, b]) data hm hid
  have hsa := dentry_size_eq a
  have hsb := dentry_size_eq b
  obtain ⟨k, hk⟩ : ∃ k, (dentry.mk rid (some mode) [a, b]).size + 1 = k + 3 :=
    ⟨sizeList a.d_subdirs + sizeList b.d_subdirs + 1, by
      simp only [dentry.size, sizeList]; omega⟩
  have hb1 : ∀ s, ¬ (0 < (cb b s id).1) := fun s => by have := hb s; omega
  have hnid : ¬ id < 0 := by omega
  have hcalled : ∀ cs, List.filterMap Event.call (child_events cs) = [] :=
    fun cs => (child_events_proj cs).2.2.2.2.1
  have hdrain : ∀ cs, List.filterMap Event.call (drain_events cs) = [] :=
    fun cs => (drain_events_proj cs).2.2.2.2.1
  have key : called st.trace = [rid, a.id, b.id] ∧
      rv = (cb b (cb a (cb (dentry.mk rid (some mode) [a, b]) data id).2 id).2 id).1 := by
    simp only [plgfs_walk_dtree, hm, hk] at hrun
    cases hino : a.d_inode with
    | none =>
      simp [walk_loop, hroot, ha, hb, hb1, hnid, hino, hdir, d_inode_mk, d_subdirs_mk,
        id_mk, enqueue_children_eq, skip, child_events, drain, drain_events] at hrun
      obtain ⟨h1, h2⟩ := hrun
      subst h1 h2
      simp [called, Event.call, List.filterMap_append, hcalled, hdrain]
    | some amode =>
      by_cases hadir : S_ISDIR amode = true
      · simp [walk_loop, hroot, ha, hb, hb1, hnid, hino, hdir, hadir, d_inode_mk,
          d_subdirs_mk, id_mk, enqueue_children_eq, skip, child_events, drain,
          drain_events] at hrun
        obtain ⟨h1, h2⟩ := hrun
        subst h1 h2
        simp [called, Event.call, List.filterMap_append, hcalled, hdrain]
      · simp [walk_loop, hroot, ha, hb, hb1, hnid, hino, hdir, hadir, d_inode_mk,
          d_subdirs_mk, id_mk, enqueue_children_eq, skip, child_events, drain,
          drain_events] at hrun
        obtain ⟨h1, h2⟩ := hrun
        subst h1 h2
        simp [called, Event.call, List.filterMap_append, hcalled, hdrain]
  exact ⟨rv, st, hrun, key.1, key.2, by rw [key.2]; exact hb _, hacq, hwalk, hdepth⟩

/-- Instance of the amended C3 on the concrete root with children "a" and "b". -/
theorem plgfs_walk_dtree_abort_on_second_child_witness :
    ∃ rv st, plgfs_walk_dtree 7 7 0 cb_abort_on_2 root_ab 0 = some (rv, st) ∧
      called st.trace = [0, 1, 2] ∧
      rv = -4 ∧
      rv < 0 ∧
      acquired st.trace = released st.trace ∧
      st.walk = [] ∧
      walk_lock_depth st.trace = 0 :=
  plgfs_walk_dtree_abort_on_second_child 7 7 0 cb_abort_on_2 0 0o040755
    (dentry.mk 1 (some 0o100644) []) (dentry.mk 2 (some 0o100644) []) 0 rfl (by decide)
    (by decide) (fun _ => rfl) (fun _ => rfl) (fun _ => by simp [cb_abort_on_2, id_mk])

end Walk

/-! ## Proofs: path reconstruction -/

namespace Dpath

theorem int32_of_range (x : Int) (h1 : -2 ^ 31 ≤ x) (h2 : x < 2 ^ 31) : int32 x = x := by
  unfold int32
  norm_num at h1 h2 ⊢
  omega

theorem len_step (l : Int) (n : Nat) (h0 : 0 ≤ l) (h1 : l < 2 ^ 31) (hn : n < 2 ^ 31) :
    int32 (u32 (u32 l - u32 (u32 (n : Int) + 1))) = l - ((n : Int) + 1) := by
  have hn1 : (n : Int) < 2 ^ 31 := by exact_mod_cast hn
  unfold int32 u32
  norm_num at h1 hn1 ⊢
  omega

theorem store_same (m : Int → Nat) (i : Int) (v : Nat) : store m i v i = v := by
  simp [store]

theorem store_other (m : Int → Nat) (i j : Int) (v : Nat) (h : j ≠ i) :
    store m i v j = m j := by
  simp [store, h]

theorem memcpy_outside (src : List Nat) : ∀ (m : Int → Nat) (dst i : Int),
    (i < dst ∨ dst + src.length ≤ i) → memcpy m dst src i = m i := by
  induction src with
  | nil => intro m dst i _; rfl
  | cons x xs ih =>
    intro m dst i h
    simp only [memcpy, List.length_cons, Nat.cast_add, Nat.cast_one] at h ⊢
    rw [ih _ _ _ (by omega), store_other _ _ _ _ (by omega)]

theorem read_length (n : Nat) : ∀ (m : Int → Nat) (p : Int), (read m p n).length = n := by
  induction n with
  | zero => intro m p; rfl
  | succ n ih => intro m p; simp [read, ih]

theorem read_congr (n : Nat) : ∀ (m m1 : Int → Nat) (p : Int),
    (∀ i, p ≤ i → i < p + n → m i = m1 i) → read m p n = read m1 p n := by
  induction n with
  | zero => intro m m1 p _; rfl
  | succ n ih =>
    intro m m1 p h
    simp only [read]
    rw [h p (le_refl p) (by push_cast; omega),
      ih m m1 (p + 1) (fun i h1 h2 => h i (by omega) (by push_cast; omega))]

theorem read_append (a b : Nat) : ∀ (m : Int → Nat) (p : Int),
    read m p (a + b) = read m p a ++ read m (p + a) b := by
  induction a with
  | zero => intro m p; simp [read]
  | succ a ih =>
    intro m p
    have e : a + 1 + b = (a + b) + 1 := by omega
    rw [e]
    simp only [read, List.cons_append, ih]
    have e2 : p + 1 + (a : Int) = p + ((a + 1 : Nat) : Int) := by push_cast; omega
    rw [e2]

theorem read_memcpy (src : List Nat) : ∀ (m : Int → Nat) (dst : Int),
    read (memcpy m dst src) dst src.length = src := by
  induction src with
  | nil => intro m dst; rfl
  | cons x xs ih =>
    intro m dst
    simp only [memcpy, List.length_cons, read]
    rw [ih, memcpy_outside _ _ _ _ (Or.inl (by omega)), store_same]

theorem joined_append (xs ys : List (List Nat)) : joined (xs ++ ys) = joined xs ++ joined ys := by
  induction xs with
  | nil => rfl
  | cons x xs ih => simp [joined, ih]

theorem joined_names_child (n : List Nat) (p : dentry) :
    joined (names (dentry.child n p)) = joined (names p) ++ 47 :: n := by
  simp [names, joined_append, joined]

theorem needed_names_child (n : List Nat) (p : dentry) :
    needed (names (dentry.child n p)) = 1 + ((joined (names (dentry.child n p))).length : Int) := by
  have h : ∀ ns : List (List Nat),
      (joined ns).length = (ns.map (fun n => n.length + 1)).sum := by
    intro ns
    induction ns with
    | nil => rfl
    | cons x xs ih => simp [joined, ih]; omega
  rw [h]
  cases hn : names (dentry.child n p) with
  | nil => simp [names] at hn
  | cons x xs => simp [needed]

theorem path_string_names_child (n : List Nat) (p : dentry) :
    path_string (names (dentry.child n p)) = joined (names (dentry.child n p)) := by
  cases hn : names (dentry.child n p) with
  | nil => simp [names] at hn
  | cons x xs => simp [path_string]

theorem joined_no_nul (ns : List (List Nat)) (h : ∀ n ∈ ns, 0 ∉ n) : 0 ∉ joined ns := by
  induction ns with
  | nil => simp [joined]
  | cons x xs ih =>
    have h1 := h x (by simp)
    have h2 := ih (fun n hn => h n (by simp [hn]))
    simp [joined, h1, h2]

theorem path_string_no_nul (ns : List (List Nat)) (h : ∀ n ∈ ns, 0 ∉ n) :
    0 ∉ path_string ns := by
  cases ns with
  | nil => simp [path_string]
  | cons x xs => simpa [path_string] using joined_no_nul (x :: xs) h

theorem c_string_of_read (xs : List Nat) : ∀ (m : Int → Nat) (p : Int) (fuel : Nat),
    read m p (xs.length + 1) = xs ++ [0] → 0 ∉ xs → xs.length < fuel →
    c_string m p fuel = xs := by
  induction xs with
  | nil =>
    intro m p fuel h _ hf
    cases fuel with
    | zero => omega
    | succ f =>
      simp [read] at h
      simp [c_string, h]
  | cons x xs ih =>
    intro m p fuel h h0 hf
    cases fuel with
    | zero => omega
    | succ f =>
      simp only [List.length_cons, read, List.cons_append, List.cons.injEq] at h
      obtain ⟨hx, hr⟩ := h
      have hx0 : x ≠ 0 := fun e => h0 (by simp [e])
      have h0s : 0 ∉ xs := fun e => h0 (by simp [e])
      simp only [List.length_cons] at hf
      simp only [c_string, hx, hx0, if_false]
      rw [ih m (p + 1) f hr h0s (by omega)]

/-- The loop succeeds exactly when the components fit below `l`; it then leaves the bytes
`/n1/../nk` just below `l` and touches nothing else; when it fails it has written only
inside `[0, l)`. -/
theorem dpath_loop_spec : ∀ (d : dentry) (l : Int) (m : Int → Nat), 0 ≤ l → l < 2 ^ 31 →
    (∀ n ∈ names d, n.length < 2 ^ 31) →
    (((joined (names d)).length : Int) ≤ l →
      ∃ m1, dpath_loop d l m = (some (l - (joined (names d)).length), m1) ∧
        read m1 (l - (joined (names d)).length) (joined (names d)).length = joined (names d) ∧
        ∀ i, (i < l - (joined (names d)).length ∨ l ≤ i) → m1 i = m i) ∧
    (l < ((joined (names d)).length : Int) →
      ∃ m1, dpath_loop d l m = (none, m1) ∧ ∀ i, (i < 0 ∨ l ≤ i) → m1 i = m i) := by
  intro d
  induction d with
  | root =>
    intro l m h0 h1 _
    refine ⟨fun _ => ⟨m, ?_, ?_, fun _ _ => rfl⟩, fun h => ?_⟩
    · simp [dpath_loop, names, joined]
    · simp [names, joined, read]
    · simp [names, joined] at h
      omega
  | child n p ih =>
    intro l m h0 h1 hn
    have hnl : n.length < 2 ^ 31 := hn n (by simp [names])
    have hp : ∀ x ∈ names p, x.length < 2 ^ 31 := fun x hx => hn x (by simp [names, hx])
    have hstep := len_step l n.length h0 h1 hnl
    have hj : (joined (names (dentry.child n p))).length
        = (joined (names p)).length + (n.length + 1) := by
      rw [joined_names_child]; simp
    simp only [dpath_loop, hstep]
    constructor
    · intro hfit
      rw [hj] at hfit ⊢
      push_cast at hfit
      have hl1 : ¬ (l - ((n.length : Int) + 1) < 0) := by omega
      obtain ⟨m1, hrun, hread, hout⟩ :=
        (ih (l - ((n.length : Int) + 1))
          (store (memcpy m (l - ((n.length : Int) + 1) + 1) n) (l - ((n.length : Int) + 1)) 47)
          (by omega) (by omega) hp).1 (by omega)
      refine ⟨m1, ?_, ?_, ?_⟩
      · rw [if_neg hl1, hrun]
        congr 2
        push_cast
        omega
      · have e : l - (((joined (names p)).length + (n.length + 1) : Nat) : Int)
            = l - ((n.length : Int) + 1) - (joined (names p)).length := by
          push_cast; omega
        rw [e, read_append, hread, joined_names_child]
        congr 1
        have e2 : l - ((n.length : Int) + 1) - (joined (names p)).length
            + (joined (names p)).length = l - ((n.length : Int) + 1) := by omega
        rw [e2]
        rw [read_congr _ m1 _ _ (fun i hi1 _ => hout i (Or.inr hi1))]
        simp only [read, store_same, List.cons.injEq, true_and]
        rw [read_congr _ _ (memcpy m (l - ((n.length : Int) + 1) + 1) n) _
          (fun i hi1 _ => store_other _ _ _ _ (by omega))]
        exact read_memcpy n m _
      · intro i hi
        push_cast at hi
        rw [hout i (by omega), store_other _ _ _ _ (by omega),
          memcpy_outside _ _ _ _ (by omega)]
    · intro hfail
      rw [hj] at hfail
      push_cast at hfail
      by_cases hl1 : l - ((n.length : Int) + 1) < 0
      · exact ⟨m, by rw [if_pos hl1], fun _ _ => rfl⟩
      · obtain ⟨m1, hrun, hout⟩ :=
          (ih (l - ((n.length : Int) + 1))
            (store (memcpy m (l - ((n.length : Int) + 1) + 1) n)
              (l - ((n.length : Int) + 1)) 47)
            (by omega) (by omega) hp).2 (by omega)
        refine ⟨m1, by rw [if_neg hl1, hrun], ?_⟩
        intro i hi
        rw [hout i (by omega), store_other _ _ _ _ (by omega),
          memcpy_outside _ _ _ _ (by omega)]


theorem plgfs_dpath_root (len : Int) (st : State) (hlo : -2 ^ 31 < len) (hhi : len < 2 ^ 31) :
    (2 ≤ len → (plgfs_dpath dentry.root len st).1 = Ret.ptr (len - 2) ∧
      read (plgfs_dpath dentry.root len st).2.buf (len - 2) 2 = [47, 0]) ∧
    (len < 2 → (plgfs_dpath dentry.root len st).1 = Ret.ERR_PTR (-ENAMETOOLONG)) ∧
    (∀ i, (i < 0 ∨ len ≤ i) → (plgfs_dpath dentry.root len st).2.buf i = st.buf i) := by
  have h1 : int32 (len - 1) = len - 1 := int32_of_range _ (by omega) (by omega)
  by_cases hneg : len - 1 < 0
  · refine ⟨fun h => by omega, fun _ => by simp [plgfs_dpath, h1, hneg], fun i _ => ?_⟩
    simp [plgfs_dpath, h1, hneg]
  · have h2 : int32 (len - 1 - 1) = len - 1 - 1 := int32_of_range _ (by omega) (by omega)
    by_cases hneg2 : len - 1 - 1 < 0
    · have e : plgfs_dpath dentry.root len st =
          (Ret.ERR_PTR (-ENAMETOOLONG),
            { buf := store st.buf (len - 1) 0,
              trace := st.trace ++ [Event.read_seqlock_excl] }) := by
        simp [plgfs_dpath, h1, h2, hneg, hneg2, IS_ROOT]
      rw [e]
      exact ⟨fun h => by omega, fun _ => rfl, fun i hi => store_other _ _ _ _ (by omega)⟩
    · have e : plgfs_dpath dentry.root len st =
          (Ret.ptr (len - 1 - 1),
            { buf := store (store st.buf (len - 1) 0) (len - 1 - 1) 47,
              trace := st.trace ++ [Event.read_seqlock_excl] ++ [Event.read_sequnlock_excl] }) := by
        simp [plgfs_dpath, h1, h2, hneg, hneg2, IS_ROOT, dpath_loop]
      rw [e]
      refine ⟨fun _ => ⟨by simp only [Ret.ptr.injEq]; omega, ?_⟩, fun h => by omega, fun i hi => ?_⟩
      · have e1 : len - 2 = len - 1 - 1 := by omega
        have e2 : len - 1 - 1 + 1 = len - 1 := by omega
        simp only [read, e1, e2, store_same]
        rw [store_other _ _ _ _ (by omega), store_same]
      · simp only
        rw [store_other _ _ _ _ (by omega), store_other _ _ _ _ (by omega)]

theorem plgfs_dpath_child (n : List Nat) (p : dentry) (len : Int) (st : State)
    (hlo : -2 ^ 31 < len) (hhi : len < 2 ^ 31)
    (hn : ∀ x ∈ names (dentry.child n p), x.length < 2 ^ 31) :
    (1 + ((joined (names (dentry.child n p))).length : Int) ≤ len →
      (plgfs_dpath (dentry.child n p) len st).1
        = Ret.ptr (len - 1 - (joined (names (dentry.child n p))).length) ∧
      read (plgfs_dpath (dentry.child n p) len st).2.buf
          (len - 1 - (joined (names (dentry.child n p))).length)
          ((joined (names (dentry.child n p))).length + 1)
        = joined (names (dentry.child n p)) ++ [0]) ∧
    (len < 1 + ((joined (names (dentry.child n p))).length : Int) →
      (plgfs_dpath (dentry.child n p) len st).1 = Ret.ERR_PTR (-ENAMETOOLONG)) ∧
    (∀ i, (i < 0 ∨ len ≤ i) → (plgfs_dpath (dentry.child n p) len st).2.buf i = st.buf i) := by
  have h1 : int32 (len - 1) = len - 1 := int32_of_range _ (by omega) (by omega)
  by_cases hneg : len - 1 < 0
  · refine ⟨fun h => by omega, fun _ => by simp [plgfs_dpath, h1, hneg], fun i _ => ?_⟩
    simp [plgfs_dpath, h1, hneg]
  · obtain ⟨hok, hfail⟩ := dpath_loop_spec (dentry.child n p) (len - 1)
      (store st.buf (len - 1) 0) (by omega) (by omega) hn
    by_cases hfit : ((joined (names (dentry.child n p))).length : Int) ≤ len - 1
    · obtain ⟨m1, hrun, hread, hout⟩ := hok hfit
      have e : plgfs_dpath (dentry.child n p) len st =
          (Ret.ptr (len - 1 - (joined (names (dentry.child n p))).length),
            { buf := m1,
              trace := st.trace ++ [Event.read_seqlock_excl] ++ [Event.read_sequnlock_excl] }) := by
        simp [plgfs_dpath, h1, hneg, IS_ROOT, hrun]
      rw [e]
      refine ⟨fun _ => ⟨rfl, ?_⟩, fun h => by omega, fun i hi => ?_⟩
      · simp only
        rw [read_append, hread]
        congr 1
        have e2 : len - 1 - ((joined (names (dentry.child n p))).length : Int)
            + (joined (names (dentry.child n p))).length = len - 1 := by omega
        simp only [read, e2]
        rw [hout _ (Or.inr (le_refl _)), store_same]
      · simp only
        rw [hout i (by omega), store_other _ _ _ _ (by omega)]
    · obtain ⟨m1, hrun, hout⟩ := hfail (by omega)
      have e : plgfs_dpath (dentry.child n p) len st =
          (Ret.ERR_PTR (-ENAMETOOLONG),
            { buf := m1,
              trace := st.trace ++ [Event.read_seqlock_excl] ++ [Event.read_sequnlock_excl] }) := by
        simp [plgfs_dpath, h1, hneg, IS_ROOT, hrun]
      rw [e]
      refine ⟨fun h => by omega, fun _ => rfl, fun i hi => ?_⟩
      simp only
      rw [hout i (by omega), store_other _ _ _ _ (by omega)]

/-- C4: for a node with component names `n1 .. nk` and a buffer of `len` bytes,
`plgfs_dpath` succeeds exactly when `len` is at least `1 + sum (|ni| + 1)` (at least `2`
for the root) and otherwise returns `ERR_PTR(-ENAMETOOLONG)`; on success the returned
pointer `buf + off` lies inside the buffer, the bytes from there to the end of the buffer
are `/n1/.../nk` (`/` for the root) followed by the terminating NUL, which is the C
string at that address when no name contains a NUL byte; and on every path no byte outside
`buf[0 .. len-1]` is changed.  `len` is a C `int` other than `INT_MIN` and name lengths
fit in an `int`. -/
theorem plgfs_dpath_spec (d : dentry) (len : Int) (st : State)
    (hlo : -2 ^ 31 < len) (hhi : len < 2 ^ 31) (hn : ∀ n ∈ names d, n.length < 2 ^ 31) :
    (needed (names d) ≤ len →
      ∃ off, (plgfs_dpath d len st).1 = Ret.ptr off ∧ 0 ≤ off ∧
        off + (path_string (names d)).length + 1 = len ∧
        read (plgfs_dpath d len st).2.buf off ((path_string (names d)).length + 1)
          = path_string (names d) ++ [0] ∧
        ((∀ n ∈ names d, 0 ∉ n) → ∀ fuel, (path_string (names d)).length < fuel →
          c_string (plgfs_dpath d len st).2.buf off fuel = path_string (names d))) ∧
    (len < needed (names d) → (plgfs_dpath d len st).1 = Ret.ERR_PTR (-ENAMETOOLONG)) ∧
    (∀ i, (i < 0 ∨ len ≤ i) → (plgfs_dpath d len st).2.buf i = st.buf i) := by
  cases d with
  | root =>
    obtain ⟨hok, hfail, hout⟩ := plgfs_dpath_root len st hlo hhi
    refine ⟨fun h => ?_, fun h => hfail (by simpa [names, needed] using h), hout⟩
    have h2 : (2 : Int) ≤ len := by simpa [names, needed] using h
    obtain ⟨hret, hread⟩ := hok h2
    refine ⟨len - 2, hret, by omega, by simp [names, path_string]; omega,
      by simpa [names, path_string] using hread, fun h0 fuel hf => ?_⟩
    exact c_string_of_read _ _ _ _ (by simpa [names, path_string] using hread)
      (path_string_no_nul _ h0) hf
  | child n p =>
    obtain ⟨hok, hfail, hout⟩ := plgfs_dpath_child n p len st hlo hhi hn
    rw [needed_names_child, path_string_names_child]
    refine ⟨fun h => ?_, hfail, hout⟩
    obtain ⟨hret, hread⟩ := hok h
    refine ⟨_, hret, by omega, by omega, hread, fun h0 fuel hf => ?_⟩
    exact c_string_of_read _ _ _ _ hread (joined_no_nul _ h0) hf

/-- Instance of C4: `/usr/lib` needs 9 bytes; with a 12-byte buffer the string starts at
`buf + 3`. -/
theorem plgfs_dpath_spec_witness :
    (needed (names usr_lib) ≤ 12 →
      ∃ off, (plgfs_dpath usr_lib 12 st_ff).1 = Ret.ptr off ∧ 0 ≤ off ∧
        off + (path_string (names usr_lib)).length + 1 = 12 ∧
        read (plgfs_dpath usr_lib 12 st_ff).2.buf off ((path_string (names usr_lib)).length + 1)
          = path_string (names usr_lib) ++ [0] ∧
        ((∀ n ∈ names usr_lib, 0 ∉ n) → ∀ fuel, (path_string (names usr_lib)).length < fuel →
          c_string (plgfs_dpath usr_lib 12 st_ff).2.buf off fuel = path_string (names usr_lib))) ∧
    (12 < needed (names usr_lib) →
      (plgfs_dpath usr_lib 12 st_ff).1 = Ret.ERR_PTR (-ENAMETOOLONG)) ∧
    (∀ i, (i < 0 ∨ 12 ≤ i) → (plgfs_dpath usr_lib 12 st_ff).2.buf i = st_ff.buf i) :=
  plgfs_dpath_spec usr_lib 12 st_ff (by decide) (by decide) (by decide)

/-- Operations on `rename_lock` performed by `plgfs_dpath` on each of its paths: none when
the first length test fails; one acquisition and no release when `d` is the root and the
second length test fails; one acquisition followed by one release otherwise (success, and
the error path of the loop). -/
theorem plgfs_dpath_lock_trace (d : dentry) (len : Int) (st : State) :
    (int32 (len - 1) < 0 → (plgfs_dpath d len st).2.trace = st.trace) ∧
    (¬ int32 (len - 1) < 0 → IS_ROOT d = true → int32 (int32 (len - 1) - 1) < 0 →
      (plgfs_dpath d len st).2.trace = st.trace ++ [Event.read_seqlock_excl]) ∧
    (¬ int32 (len - 1) < 0 → ¬ (IS_ROOT d = true ∧ int32 (int32 (len - 1) - 1) < 0) →
      (plgfs_dpath d len st).2.trace
        = st.trace ++ [Event.read_seqlock_excl, Event.read_sequnlock_excl]) := by
  refine ⟨fun h => ?_, fun h hr h2 => ?_, fun h hn => ?_⟩
  · simp [plgfs_dpath, h]
  · simp [plgfs_dpath, h, hr, h2]
  · have hc : (IS_ROOT d && decide (int32 (int32 (len - 1) - 1) < 0)) = false := by
      cases hr : IS_ROOT d
      · rfl
      · simpa [hr] using hn
    simp only [plgfs_dpath, h, if_false, hc, Bool.false_eq_true]
    generalize dpath_loop _ _ _ = q
    rcases q with ⟨_ | l, m3⟩ <;> simp

/-- The hold count of `rename_lock` at return of `plgfs_dpath`, for `len` a C `int` other
than `INT_MIN`: one more than on entry for the root with `len = 1`, and the same as on
entry in every other case. -/
theorem plgfs_dpath_lock_depth (d : dentry) (len : Int) (st : State)
    (hlo : -2 ^ 31 < len) (hhi : len < 2 ^ 31) :
    (d = dentry.root ∧ len = 1 →
      rename_lock_depth (plgfs_dpath d len st).2.trace = rename_lock_depth st.trace + 1) ∧
    (¬ (d = dentry.root ∧ len = 1) →
      rename_lock_depth (plgfs_dpath d len st).2.trace = rename_lock_depth st.trace) := by
  have h1 : int32 (len - 1) = len - 1 := int32_of_range _ (by omega) (by omega)
  obtain ⟨t1, t2, t3⟩ := plgfs_dpath_lock_trace d len st
  rw [h1] at t1 t2 t3
  constructor
  · rintro ⟨hd, hl⟩
    subst hd hl
    rw [t2 (by omega) rfl (by decide)]
    simp [rename_lock_depth, Event.lock_delta]
  · intro hn
    by_cases hneg : len - 1 < 0
    · rw [t1 hneg]
    · have h2 : int32 (len - 1 - 1) = len - 1 - 1 := int32_of_range _ (by omega) (by omega)
      rw [h2] at t3
      rw [t3 hneg (by
        rintro ⟨hr, hlt⟩
        apply hn
        refine ⟨?_, by omega⟩
        cases d with
        | root => rfl
        | child n p => simp [IS_ROOT] at hr)]
      simp [rename_lock_depth, Event.lock_delta]

/-- C11 (the code at the failing input): for the root entry and a buffer of length 1,
`plgfs_dpath` acquires `rename_lock`, returns `ERR_PTR(-ENAMETOOLONG)` from inside the
`IS_ROOT` branch and never releases the lock: the hold count at return is 1 instead of 0.
On the other error path, a buffer of 8 bytes for `/usr/lib`, the lock is acquired and
released. -/
theorem plgfs_dpath_root_short_buffer_keeps_lock :
    (plgfs_dpath dentry.root 1 st_ff).1 = Ret.ERR_PTR (-ENAMETOOLONG) ∧
    (plgfs_dpath dentry.root 1 st_ff).2.trace = [Event.read_seqlock_excl] ∧
    rename_lock_depth st_ff.trace = 0 ∧
    rename_lock_depth (plgfs_dpath dentry.root 1 st_ff).2.trace = 1 ∧
    (plgfs_dpath usr_lib 8 st_ff).1 = Ret.ERR_PTR (-ENAMETOOLONG) ∧
    (plgfs_dpath usr_lib 8 st_ff).2.trace
      = [Event.read_seqlock_excl, Event.read_sequnlock_excl] := by
  decide

end Dpath

/-! ## Proofs: operation wrappers -/

namespace Ops

/-- C1: whenever the context allocation succeeds and the pre-hook chain signals
"handled" (`plgfs_precall_plgs` returns `0`), each of the ten wrappers that consult this
outcome (lookup, create, setattr, unlink, mkdir, rmdir, rename, revalidate, hash,
compare) makes exactly four calls: the allocation, the pre-hook chain, the post-hook
chain and the release of the context.  None of these is a backing primitive or a backing
lock, the post-hook chain occurs exactly once, the kernel state is the one the allocation
left, and the value returned is the result slot of the context as the post-hook chain
left it. -/
theorem handled_skips_backing {κ : Type} (K : Kernel κ) (w : World κ)
    (halloc : IS_ERR (K.call Event.plgfs_alloc_context w.k).1 = false)
    (hatomic : IS_ERR (K.call Event.plgfs_alloc_context_atomic w.k).1 = false) :
    (∀ (H : Hooks i_unlink_args) (i d : Int) (c0 : plgfs_context i_unlink_args),
      c0 = { op_id := OpId.PLGFS_DIR_IOP_UNLINK, op_args := { dir := i, dentry := d },
             op_rv := K.ctx_rv (K.call Event.plgfs_alloc_context w.k).2
               (K.call Event.plgfs_alloc_context w.k).1 } →
      (H.pre c0 w.iattrs).1 = 0 →
      Handled K H c0 w Event.plgfs_alloc_context (plgfs_dir_iop_unlink K H i d w)) ∧
    (∀ (H : Hooks i_lookup_args) (i d : Int) (flags : Nat) (c0 : plgfs_context i_lookup_args),
      c0 = { op_id := OpId.PLGFS_DIR_IOP_LOOKUP,
             op_args := { dir := i, dentry := d, flags := flags },
             op_rv := K.ctx_rv (K.call Event.plgfs_alloc_context w.k).2
               (K.call Event.plgfs_alloc_context w.k).1 } →
      (H.pre c0 w.iattrs).1 = 0 →
      Handled K H c0 w Event.plgfs_alloc_context (plgfs_dir_iop_lookup K H i d flags w)) ∧
    (∀ (H : Hooks i_create_args) (ip d : Int) (mode : Nat) (excl : Bool)
        (c0 : plgfs_context i_create_args),
      c0 = { op_id := OpId.PLGFS_DIR_IOP_CREATE,
             op_args := { dir := ip, dentry := d, mode := mode, excl := excl },
             op_rv := K.ctx_rv (K.call Event.plgfs_alloc_context w.k).2
               (K.call Event.plgfs_alloc_context w.k).1 } →
      (H.pre c0 w.iattrs).1 = 0 →
      Handled K H c0 w Event.plgfs_alloc_context (plgfs_dir_iop_create K H ip d mode excl w)) ∧
    (∀ (H : Hooks i_setattr_args) (d ia : Int) (c0 : plgfs_context i_setattr_args),
      c0 = { op_id := OpId.PLGFS_REG_IOP_SETATTR, op_args := { dentry := d, iattr := ia },
             op_rv := K.ctx_rv (K.call Event.plgfs_alloc_context w.k).2
               (K.call Event.plgfs_alloc_context w.k).1 } →
      (H.pre c0 w.iattrs).1 = 0 →
      Handled K H c0 w Event.plgfs_alloc_context (plgfs_reg_iop_setattr K H d ia w)) ∧
    (∀ (H : Hooks i_mkdir_args) (ip d : Int) (m : Nat) (c0 : plgfs_context i_mkdir_args),
      c0 = { op_id := OpId.PLGFS_DIR_IOP_MKDIR,
             op_args := { dir := ip, dentry := d, mode := m },
             op_rv := K.ctx_rv (K.call Event.plgfs_alloc_context w.k).2
               (K.call Event.plgfs_alloc_context w.k).1 } →
      (H.pre c0 w.iattrs).1 = 0 →
      Handled K H c0 w Event.plgfs_alloc_context (plgfs_dir_iop_mkdir K H ip d m w)) ∧
    (∀ (H : Hooks i_mkdir_args) (ip d : Int) (c0 : plgfs_context i_mkdir_args),
      c0 = { op_id := OpId.PLGFS_DIR_IOP_RMDIR,
             op_args :=
               { dir := ip, dentry := d,
                 mode := K.ctx_mode (K.call Event.plgfs_alloc_context w.k).2
                   (K.call Event.plgfs_alloc_context w.k).1 },
             op_rv := K.ctx_rv (K.call Event.plgfs_alloc_context w.k).2
               (K.call Event.plgfs_alloc_context w.k).1 } →
      (H.pre c0 w.iattrs).1 = 0 →
      Handled K H c0 w Event.plgfs_alloc_context (plgfs_dir_iop_rmdir K H ip d w)) ∧
    (∀ (H : Hooks i_rename_args) (oi od ni nd : Int) (c0 : plgfs_context i_rename_args),
      c0 = { op_id := OpId.PLGFS_DIR_IOP_RENAME,
             op_args := { old_dir := oi, old_dentry := od, new_dir := ni, new_dentry := nd },
             op_rv := K.ctx_rv (K.call Event.plgfs_alloc_context w.k).2
               (K.call Event.plgfs_alloc_context w.k).1 } →
      (H.pre c0 w.iattrs).1 = 0 →
      Handled K H c0 w Event.plgfs_alloc_context (plgfs_dir_iop_rename K H oi od ni nd w)) ∧
    (∀ (H : Hooks d_revalidate_args) (d : Int) (flags : Nat)
        (c0 : plgfs_context d_revalidate_args),
      c0 = { op_id := OpId.PLGFS_DOP_D_REVALIDATE, op_args := { dentry := d, flags := flags },
             op_rv := K.ctx_rv (K.call Event.plgfs_alloc_context_atomic w.k).2
               (K.call Event.plgfs_alloc_context_atomic w.k).1 } →
      (H.pre c0 w.iattrs).1 = 0 →
      Handled K H c0 w Event.plgfs_alloc_context_atomic (plgfs_d_revalidate K H d flags w)) ∧
    (∀ (H : Hooks d_hash_args) (d s : Int) (c0 : plgfs_context d_hash_args),
      c0 = { op_id := OpId.PLGFS_DOP_D_HASH, op_args := { dentry := d, str := s },
             op_rv := K.ctx_rv (K.call Event.plgfs_alloc_context_atomic w.k).2
               (K.call Event.plgfs_alloc_context_atomic w.k).1 } →
      (H.pre c0 w.iattrs).1 = 0 →
      Handled K H c0 w Event.plgfs_alloc_context_atomic (plgfs_d_hash K H d s w)) ∧
    (∀ (H : Hooks d_compare_args) (dp d : Int) (len : Nat) (str : List Nat) (name : qstr)
        (c0 : plgfs_context d_compare_args),
      c0 = { op_id := OpId.PLGFS_DOP_D_COMPARE,
             op_args := { parent := dp, dentry := d, len := len, str := str, name := name },
             op_rv := K.ctx_rv (K.call Event.plgfs_alloc_context_atomic w.k).2
               (K.call Event.plgfs_alloc_context_atomic w.k).1 } →
      (H.pre c0 w.iattrs).1 = 0 →
      Handled K H c0 w Event.plgfs_alloc_context_atomic
        (plgfs_d_compare K H dp d len str name w)) ∧
    (∀ (alloc : Event) (cont : Int),
      alloc = Event.plgfs_alloc_context ∨ alloc = Event.plgfs_alloc_context_atomic →
      (∀ e ∈ [alloc, Event.plgfs_precall_plgs, Event.plgfs_postcall_plgs,
          Event.plgfs_free_context cont], e.is_backing = false ∧ e.is_lock = false) ∧
      List.count Event.plgfs_postcall_plgs [alloc, Event.plgfs_precall_plgs,
        Event.plgfs_postcall_plgs, Event.plgfs_free_context cont] = 1) := by
  refine ⟨?_, ?_, ?_, ?_, ?_, ?_, ?_, ?_, ?_, ?_, ?_⟩
  · intro H i d c0 hc h
    subst hc
    simp [plgfs_dir_iop_unlink, Handled, exec, emit, plgfs_precall_plgs,
      plgfs_postcall_plgs, halloc, h]
  · intro H i d flags c0 hc h
    subst hc
    simp [plgfs_dir_iop_lookup, Handled, exec, emit, plgfs_precall_plgs,
      plgfs_postcall_plgs, halloc, h]
  · intro H ip d mode excl c0 hc h
    subst hc
    simp [plgfs_dir_iop_create, Handled, exec, emit, plgfs_precall_plgs,
      plgfs_postcall_plgs, halloc, h]
  · intro H d ia c0 hc h
    subst hc
    simp [plgfs_reg_iop_setattr, Handled, exec, emit, plgfs_precall_plgs,
      plgfs_postcall_plgs, halloc, h]
  · intro H ip d m c0 hc h
    subst hc
    simp [plgfs_dir_iop_mkdir, Handled, exec, emit, plgfs_precall_plgs,
      plgfs_postcall_plgs, halloc, h]
  · intro H ip d c0 hc h
    subst hc
    simp [plgfs_dir_iop_rmdir, Handled, exec, emit, plgfs_precall_plgs,
      plgfs_postcall_plgs, halloc, h]
  · intro H oi od ni nd c0 hc h
    subst hc
    simp [plgfs_dir_iop_rename, Handled, exec, emit, plgfs_precall_plgs,
      plgfs_postcall_plgs, halloc, h]
  · intro H d flags c0 hc h
    subst hc
    simp [plgfs_d_revalidate, Handled, exec, emit, plgfs_precall_plgs,
      plgfs_postcall_plgs, hatomic, h]
  · intro H d s c0 hc h
    subst hc
    simp [plgfs_d_hash, Handled, exec, emit, plgfs_precall_plgs,
      plgfs_postcall_plgs, hatomic, h]
  · intro H dp d len str name c0 hc h
    subst hc
    simp [plgfs_d_compare, Handled, exec, emit, plgfs_precall_plgs,
      plgfs_postcall_plgs, hatomic, h]
  · intro alloc cont h
    rcases h with h | h <;> subst h <;> simp [Event.is_backing, Event.is_lock]

/-- Instance of C1: with a first plugin whose unlink pre-hook signals "handled" with
`-EACCES`, `plgfs_dir_iop_unlink` returns `-EACCES` after the four calls. -/
theorem handled_skips_backing_witness :
    Handled toy (hooks_handled i_unlink_args)
      { op_id := OpId.PLGFS_DIR_IOP_UNLINK, op_args := { dir := 10, dentry := 11 }, op_rv := 0 }
      (toy_world toy_state) Event.plgfs_alloc_context
      (plgfs_dir_iop_unlink toy (hooks_handled i_unlink_args) 10 11 (toy_world toy_state)) ∧
    (plgfs_dir_iop_unlink toy (hooks_handled i_unlink_args) 10 11 (toy_world toy_state)).1
      = -EACCES :=
  ⟨(handled_skips_backing toy (toy_world toy_state) (by decide) (by decide)).1
    (hooks_handled i_unlink_args) 10 11 _ rfl rfl, by decide⟩

/-- C5: in `plgfs_dir_iop_rename`, when the context is allocated and the pre-hooks do not
signal "handled": if the trap returned by `lock_rename` is the backing entry of the source
the result slot is set to `-EINVAL`, and if it is the backing entry of the destination
(the test against the source entry comes first) it is set to `-ENOTEMPTY`.  In both cases
the only calls between the two hook chains are `lock_rename` and `unlock_rename`, so
`vfs_rename` is not called and nothing else is changed: the kernel state is the one
`lock_rename` left.  The value returned is what the post-hook chain leaves in the result
slot, hence the rejection code when the post-hook chain keeps the slot. -/
theorem rename_trap_rejected {κ : Type} (K : Kernel κ) (H : Hooks i_rename_args)
    (oi od ni nd : Int) (w : World κ) (c0 : plgfs_context i_rename_args)
    (halloc : IS_ERR (K.call Event.plgfs_alloc_context w.k).1 = false)
    (hc0 : c0 = { op_id := OpId.PLGFS_DIR_IOP_RENAME,
                  op_args := { old_dir := oi, old_dentry := od, new_dir := ni, new_dentry := nd },
                  op_rv := K.ctx_rv (K.call Event.plgfs_alloc_context w.k).2
                    (K.call Event.plgfs_alloc_context w.k).1 })
    (hpre : (H.pre c0 w.iattrs).1 ≠ 0) :
    let cont := (K.call Event.plgfs_alloc_context w.k).1
    let k1 := (K.call Event.plgfs_alloc_context w.k).2
    let c := (H.pre c0 w.iattrs).2.1
    let m := (H.pre c0 w.iattrs).2.2
    let odh := K.plgfs_dh k1 c.op_args.old_dentry
    let ndh := K.plgfs_dh k1 c.op_args.new_dentry
    let lock := Event.lock_rename (K.d_parent k1 ndh) (K.d_parent k1 odh)
    let trap := (K.call lock k1).1
    let k2 := (K.call lock k1).2
    let r := plgfs_dir_iop_rename K H oi od ni nd w
    let rejected := fun (code : Int) =>
      r.1 = (H.post { c with op_rv := code } m).1.op_rv ∧
      ((H.post { c with op_rv := code } m).1.op_rv = code → r.1 = code) ∧
      r.2.trace = w.trace ++ [Event.plgfs_alloc_context, Event.plgfs_precall_plgs, lock,
        Event.unlock_rename (K.d_parent k2 ndh) (K.d_parent k2 odh),
        Event.plgfs_postcall_plgs, Event.plgfs_free_context cont] ∧
      (∀ a b c d, Event.vfs_rename a b c d ∉ r.2.trace.drop w.trace.length) ∧
      r.2.k = k2
    (trap = odh → rejected (-EINVAL)) ∧ (trap = ndh → ndh ≠ odh → rejected (-ENOTEMPTY)) := by
  subst hc0
  intro cont k1 c m odh ndh lock trap k2 r rejected
  constructor
  · intro ht
    have ht1 : (K.call (Event.lock_rename (K.d_parent k1 ndh) (K.d_parent k1 odh)) k1).1
        = odh := ht
    simp only [rejected, r]
    simp [plgfs_dir_iop_rename, exec, emit, plgfs_precall_plgs, plgfs_postcall_plgs, halloc,
      hpre, ht1, k1, k2, c, m, odh, ndh, lock, cont]
  · intro ht hne
    have ht1 : (K.call (Event.lock_rename (K.d_parent k1 ndh) (K.d_parent k1 odh)) k1).1
        = ndh := ht
    have hne1 : ¬ (K.plgfs_dh k1 c.op_args.new_dentry = K.plgfs_dh k1 c.op_args.old_dentry) :=
      hne
    simp only [rejected, r]
    simp [plgfs_dir_iop_rename, exec, emit, plgfs_precall_plgs, plgfs_postcall_plgs, halloc,
      hpre, ht1, hne1, k1, k2, c, m, odh, ndh, lock, cont]

/-- Instance of C5: the trap is the backing entry of the source (address 111), and the
rename returns `-EINVAL` without calling `vfs_rename`. -/
theorem rename_trap_rejected_witness :
    (plgfs_dir_iop_rename toy (hooks_pass i_rename_args) 10 11 20 21
        (toy_world { toy_state with trap := 111 })).1 = -EINVAL ∧
    (plgfs_dir_iop_rename toy (hooks_pass i_rename_args) 10 11 20 21
        (toy_world { toy_state with trap := 111 })).2.trace =
      [Event.plgfs_alloc_context, Event.plgfs_precall_plgs, Event.lock_rename 120 110,
        Event.unlock_rename 120 110, Event.plgfs_postcall_plgs,
        Event.plgfs_free_context 4096] :=
  have h := (rename_trap_rejected toy (hooks_pass i_rename_args) 10 11 20 21
    (toy_world { toy_state with trap := 111 }) _ (by decide) rfl (by decide)).1 rfl
  ⟨h.2.1 rfl, h.2.2.1⟩


theorem IgetExt_refl {κ : Type} (w : World κ) : IgetExt w w :=
  ⟨⟨[], by simp, by simp⟩, rfl⟩

theorem IgetExt_exec {κ : Type} (K : Kernel κ) (e : Event) (w w1 : World κ)
    (he : e.is_iget = true) (h : IgetExt w w1) : IgetExt w (exec K e w1).2 := by
  obtain ⟨⟨evs, h1, h2⟩, h3⟩ := h
  refine ⟨⟨evs ++ [e], by simp [exec, h1], ?_⟩, by simp [exec, h3]⟩
  intro x hx
  rcases List.mem_append.mp hx with hx | hx
  · exact h2 x hx
  · simp at hx; rw [hx]; exact he

theorem IgetExt_emit {κ : Type} (e : Event) (w w1 : World κ)
    (he : e.is_iget = true) (h : IgetExt w w1) : IgetExt w (emit e w1) := by
  obtain ⟨⟨evs, h1, h2⟩, h3⟩ := h
  refine ⟨⟨evs ++ [e], by simp [emit, h1], ?_⟩, by simp [emit, h3]⟩
  intro x hx
  rcases List.mem_append.mp hx with hx | hx
  · exact h2 x hx
  · simp at hx; rw [hx]; exact he

theorem IgetExt_alloc_ii {κ : Type} (K : Kernel κ) (w w1 : World κ) (h : IgetExt w w1) :
    IgetExt w (plgfs_alloc_ii K w1).2 := by
  unfold plgfs_alloc_ii
  dsimp only
  split_ifs
  · exact IgetExt_exec K _ w w1 rfl h
  · exact IgetExt_emit _ w _ rfl (IgetExt_exec K _ w w1 rfl h)

/-- Identity mapping only appends calls of its own kind to the trace and leaves the
attribute records alone. -/
theorem plgfs_iget_trace {κ : Type} (K : Kernel κ) (sb ino : Int) (w : World κ) :
    IgetExt w (plgfs_iget K sb ino w).2 := by
  unfold plgfs_iget
  dsimp only
  split_ifs
  all_goals dsimp only
  all_goals
    repeat
      first
      | exact IgetExt_refl w
      | apply IgetExt_exec K _ w _ (by rfl)
      | apply IgetExt_alloc_ii K w

/-- C6: in `plgfs_dir_iop_create`, when the context is allocated, the pre-hooks do not
signal "handled", `vfs_create` returns `0` and `plgfs_iget` returns an error pointer `e`:
after the calls of `plgfs_iget` the wrapper locks the backing parent, calls `vfs_unlink`
on the backing entry just created and unlocks the parent (logging when the unlink fails);
`d_instantiate` is not called; the value returned is what the post-hook chain leaves of
`e`, hence `e` when it keeps the result slot, whatever `vfs_unlink` returned; the kernel
state at return is the one `vfs_unlink` left, so that the entry is absent from the backing
directory when `vfs_unlink` reports success and keeps its contract. -/
theorem create_rollback_on_iget_failure {κ : Type} (K : Kernel κ) (H : Hooks i_create_args)
    (ip d : Int) (mode : Nat) (excl : Bool) (w : World κ) (c0 : plgfs_context i_create_args)
    (halloc : IS_ERR (K.call Event.plgfs_alloc_context w.k).1 = false)
    (hc0 : c0 = { op_id := OpId.PLGFS_DIR_IOP_CREATE,
                  op_args := { dir := ip, dentry := d, mode := mode, excl := excl },
                  op_rv := K.ctx_rv (K.call Event.plgfs_alloc_context w.k).2
                    (K.call Event.plgfs_alloc_context w.k).1 })
    (hpre : (H.pre c0 w.iattrs).1 ≠ 0) :
    let cont := (K.call Event.plgfs_alloc_context w.k).1
    let k1 := (K.call Event.plgfs_alloc_context w.k).2
    let c := (H.pre c0 w.iattrs).2.1
    let m := (H.pre c0 w.iattrs).2.2
    let iph := K.plgfs_ih k1 c.op_args.dir
    let dh := K.plgfs_dh k1 c.op_args.dentry
    let create := Event.vfs_create iph dh c.op_args.mode c.op_args.excl
    let k2 := (K.call create k1).2
    let w2 : World κ :=
      { k := k2, iattrs := m,
        trace := w.trace ++ [Event.plgfs_alloc_context, Event.plgfs_precall_plgs,
          Event.mutex_lock_nested iph, create, Event.mutex_unlock iph] }
    let g := plgfs_iget K (K.i_sb k2 c.op_args.dir) (K.d_inode k2 dh) w2
    let u := K.call (Event.vfs_unlink iph dh) g.2.k
    let r := plgfs_dir_iop_create K H ip d mode excl w
    (K.call create k1).1 = 0 → IS_ERR g.1 = true →
      r.2.trace = g.2.trace ++ [Event.mutex_lock_nested iph, Event.vfs_unlink iph dh,
          Event.mutex_unlock iph] ++ (if u.1 ≠ 0 then [Event.pr_err] else []) ++
          [Event.plgfs_postcall_plgs, Event.plgfs_free_context cont] ∧
      (∃ evs, g.2.trace = w2.trace ++ evs ∧ ∀ e ∈ evs, e.is_iget = true) ∧
      (∀ x y, Event.d_instantiate x y ∉ r.2.trace.drop w.trace.length) ∧
      r.1 = (H.post { c with op_rv := g.1 } m).1.op_rv ∧
      ((H.post { c with op_rv := g.1 } m).1.op_rv = g.1 → r.1 = g.1) ∧
      r.2.k = u.2 ∧
      ((∀ k ih x, (K.call (Event.vfs_unlink ih x) k).1 = 0 →
          K.present (K.call (Event.vfs_unlink ih x) k).2 x = false) →
        u.1 = 0 → K.present r.2.k dh = false) := by
  subst hc0
  generalize hA : K.call Event.plgfs_alloc_context w.k = A at *
  generalize hP : H.pre _ w.iattrs = P at *
  intro cont k1 c m iph dh create k2 w2 g u r hcreate higet
  obtain ⟨⟨evs, hevs, hkind⟩, hia⟩ :=
    plgfs_iget_trace K (K.i_sb k2 c.op_args.dir) (K.d_inode k2 dh) w2
  have hcreate1 : (K.call (Event.vfs_create iph dh c.op_args.mode c.op_args.excl) k1).1 = 0 :=
    hcreate
  have higet1 : IS_ERR (plgfs_iget K (K.i_sb k2 c.op_args.dir) (K.d_inode k2 dh) w2).1 = true :=
    higet
  have hr : r = ((H.post { c with op_rv := g.1 } m).1.op_rv,
      { k := u.2, iattrs := (H.post { c with op_rv := g.1 } m).2,
        trace := g.2.trace ++ [Event.mutex_lock_nested iph, Event.vfs_unlink iph dh,
          Event.mutex_unlock iph] ++ (if u.1 ≠ 0 then [Event.pr_err] else []) ++
          [Event.plgfs_postcall_plgs, Event.plgfs_free_context cont] }) := by
    have hia1 : (plgfs_iget K (K.i_sb k2 c.op_args.dir) (K.d_inode k2 dh) w2).2.iattrs = m := hia
    by_cases hu : (K.call (Event.vfs_unlink iph dh) g.2.k).1 = 0 <;>
    simp [r, plgfs_dir_iop_create, exec, emit, plgfs_precall_plgs, plgfs_postcall_plgs,
      hA, hP, halloc, hpre, hcreate1, higet1, hia1, hu, g, u, w2, k2, create, dh, iph, m, c, k1,
      cont]
  rw [hr]
  refine ⟨rfl, ⟨evs, hevs, hkind⟩, ?_, rfl, fun h => h, rfl, fun hcontract hu => ?_⟩
  · intro x y hmem
    have hg : g.2.trace = w.trace ++ ([Event.plgfs_alloc_context, Event.plgfs_precall_plgs,
        Event.mutex_lock_nested iph, create, Event.mutex_unlock iph] ++ evs) := by
      rw [hevs]; simp [w2]
    simp only [hg, List.append_assoc, List.drop_left] at hmem
    simp only [List.mem_append, List.mem_cons, List.mem_singleton, List.not_mem_nil,
      or_false] at hmem
    rcases hmem with (h | h | h | h | h) | h | (h | h | h) | h | h | h
    any_goals (first | exact absurd h (by simp) | skip)
    · have := hkind _ h
      simp [Event.is_iget] at this
  · exact hcontract g.2.k iph dh hu

/-- Instance of C6 on the small filesystem: `vfs_create` succeeds, `igrab` fails, so
`plgfs_iget` returns `-ESTALE`; the entry at address 111 is unlinked again and the create
returns `-ESTALE`. -/
theorem create_rollback_on_iget_failure_witness :
    (plgfs_dir_iop_create toy (hooks_pass i_create_args) 10 11 0 false
        (toy_world { toy_state with igrab_fails := true })).1 = -ESTALE ∧
    (plgfs_dir_iop_create toy (hooks_pass i_create_args) 10 11 0 false
        (toy_world { toy_state with igrab_fails := true })).2.trace =
      [Event.plgfs_alloc_context, Event.plgfs_precall_plgs, Event.mutex_lock_nested 110,
        Event.vfs_create 110 111 0 false, Event.mutex_unlock 110, Event.igrab 1111,
        Event.mutex_lock_nested 110, Event.vfs_unlink 110 111, Event.mutex_unlock 110,
        Event.plgfs_postcall_plgs, Event.plgfs_free_context 4096] ∧
    toy.present (plgfs_dir_iop_create toy (hooks_pass i_create_args) 10 11 0 false
        (toy_world { toy_state with igrab_fails := true })).2.k 111 = false :=
  have h := create_rollback_on_iget_failure toy (hooks_pass i_create_args) 10 11 0 false
    (toy_world { toy_state with igrab_fails := true }) _ (by decide) rfl (by decide)
    (by decide) (by decide)
  ⟨h.2.2.2.2.1 rfl, h.1, h.2.2.2.2.2.2 (fun k ih x _ => by simp [toy, toy_call]) rfl⟩


theorem headD_eq_getD (l : List Nat) : l.headD 0 = l.getD 0 0 := by
  cases l <;> rfl

theorem tail_getD (l : List Nat) (i : Nat) : l.tail.getD i 0 = l.getD (i + 1) 0 := by
  cases l <;> simp

/-- Against a name without NUL among its first `n` bytes, `strncmp` returns `0` exactly
when the first `n` bytes agree. -/
theorem strncmp_eq_zero_iff (n : Nat) : ∀ (cs ct : List Nat),
    (∀ i, i < n → ct.getD i 0 ≠ 0) →
    (strncmp cs ct n = 0 ↔ ∀ i, i < n → cs.getD i 0 = ct.getD i 0) := by
  induction n with
  | zero => intro cs ct _; simp [strncmp]
  | succ n ih =>
    intro cs ct hnul
    have h0 := hnul 0 (by omega)
    have htail : ∀ i, i < n → ct.tail.getD i 0 ≠ 0 := fun i hi => by
      rw [tail_getD]; exact hnul (i + 1) (by omega)
    simp only [strncmp, headD_eq_getD]
    by_cases hne : cs.getD 0 0 = ct.getD 0 0
    · have hc : cs.getD 0 0 ≠ 0 := by rw [hne]; exact h0
      simp only [hne, ne_eq, not_true_eq_false, if_false]
      rw [if_neg h0, ih cs.tail ct.tail htail]
      constructor
      · intro h i hi
        cases i with
        | zero => exact hne
        | succ j =>
          have := h j (by omega)
          rwa [tail_getD, tail_getD] at this
      · intro h i hi
        rw [tail_getD, tail_getD]
        exact h (i + 1) (by omega)
    · rw [if_pos hne]
      constructor
      · intro h
        split_ifs at h
        all_goals omega
      · intro h
        exact absurd (h 0 (by omega)) hne

/-- C10: in `plgfs_d_compare`, when the context is allocated, no pre-hook signals
"handled", the backing entry does not declare `DCACHE_OP_COMPARE` and the post-hook chain
keeps the result slot: the value returned is `0` exactly when the candidate length equals
the length of the name and the first `len` bytes of the candidate equal those of the name
one for one, and is non-zero otherwise; the only calls made are the allocation, the two
hook chains and the release of the context, so the compare of the backing filesystem is
not called.  Candidate and name are the ones in the context after the pre-hook chain;
the name is a file name, without NUL among its bytes. -/
theorem d_compare_default {κ : Type} (K : Kernel κ) (H : Hooks d_compare_args)
    (dp d : Int) (len : Nat) (str : List Nat) (name : qstr) (w : World κ)
    (c0 : plgfs_context d_compare_args)
    (hatomic : IS_ERR (K.call Event.plgfs_alloc_context_atomic w.k).1 = false)
    (hc0 : c0 = { op_id := OpId.PLGFS_DOP_D_COMPARE,
                  op_args := { parent := dp, dentry := d, len := len, str := str, name := name },
                  op_rv := K.ctx_rv (K.call Event.plgfs_alloc_context_atomic w.k).2
                    (K.call Event.plgfs_alloc_context_atomic w.k).1 })
    (hpre : (H.pre c0 w.iattrs).1 ≠ 0)
    (hflags : (K.d_flags (K.call Event.plgfs_alloc_context_atomic w.k).2
      (K.plgfs_dh (K.call Event.plgfs_alloc_context_atomic w.k).2
        (H.pre c0 w.iattrs).2.1.op_args.dentry) &&& DCACHE_OP_COMPARE) = 0)
    (hpost : ∀ c1 m1, (H.post c1 m1).1.op_rv = c1.op_rv)
    (hnul : ∀ i, i < (H.pre c0 w.iattrs).2.1.op_args.name.len →
      (H.pre c0 w.iattrs).2.1.op_args.name.name.getD i 0 ≠ 0) :
    let a := (H.pre c0 w.iattrs).2.1.op_args
    let r := plgfs_d_compare K H dp d len str name w
    (r.1 = 0 ↔ a.len = a.name.len ∧ ∀ i, i < a.len → a.str.getD i 0 = a.name.name.getD i 0) ∧
    r.2.trace = w.trace ++ [Event.plgfs_alloc_context_atomic, Event.plgfs_precall_plgs,
      Event.plgfs_postcall_plgs,
      Event.plgfs_free_context (K.call Event.plgfs_alloc_context_atomic w.k).1] ∧
    (∀ e ∈ r.2.trace.drop w.trace.length, e.is_backing = false) := by
  subst hc0
  generalize hA : K.call Event.plgfs_alloc_context_atomic w.k = A at *
  generalize hP : H.pre _ w.iattrs = P at *
  intro a r
  have htr : r.2.trace = w.trace ++ [Event.plgfs_alloc_context_atomic,
      Event.plgfs_precall_plgs, Event.plgfs_postcall_plgs, Event.plgfs_free_context A.1] := by
    by_cases hl : P.2.1.op_args.len = P.2.1.op_args.name.len <;>
    simp [r, plgfs_d_compare, exec, emit, plgfs_precall_plgs, plgfs_postcall_plgs, hA, hP,
      hatomic, hpre, hflags, hl]
  have hrv : r.1 = if P.2.1.op_args.len ≠ P.2.1.op_args.name.len then 1
      else strncmp P.2.1.op_args.str P.2.1.op_args.name.name P.2.1.op_args.len := by
    by_cases hl : P.2.1.op_args.len = P.2.1.op_args.name.len <;>
    simp [r, plgfs_d_compare, exec, emit, plgfs_precall_plgs, plgfs_postcall_plgs, hA, hP,
      hatomic, hpre, hflags, hl, hpost]
  refine ⟨?_, htr, ?_⟩
  · rw [hrv]
    by_cases hl : P.2.1.op_args.len = P.2.1.op_args.name.len
    · have hs := strncmp_eq_zero_iff P.2.1.op_args.len P.2.1.op_args.str
        P.2.1.op_args.name.name (by rw [hl]; exact hnul)
      rw [if_neg (not_not.mpr hl), hs]
      exact ⟨fun h => ⟨hl, h⟩, fun h => h.2⟩
    · rw [if_pos hl]
      exact ⟨fun h => absurd h (by decide), fun h => absurd h.1 hl⟩
  · rw [htr]
    simp [Event.is_backing]

/-- Instance of C10: the candidate `abc` matches the name `abc` and does not match the
name `abd`. -/
theorem d_compare_default_witness :
    (plgfs_d_compare toy (hooks_pass d_compare_args) 10 11 3 [97, 98, 99]
        { len := 3, name := [97, 98, 99] } (toy_world toy_state)).1 = 0 ∧
    (plgfs_d_compare toy (hooks_pass d_compare_args) 10 11 3 [97, 98, 99]
        { len := 3, name := [97, 98, 100] } (toy_world toy_state)).1 ≠ 0 :=
  ⟨(d_compare_default toy (hooks_pass d_compare_args) 10 11 3 [97, 98, 99]
      { len := 3, name := [97, 98, 99] } (toy_world toy_state) _ (by decide) rfl (by decide)
      (by decide) (fun _ _ => rfl) (by decide)).1.mpr (by decide),
    by decide⟩


/-- Calls of `plgfs_d_release` on each of its paths, for every kernel and plugin chain:
with a context, the backing reference is dropped once between the two hook chains and the
shadow record freed once; without a context, the record is freed once, and the backing
reference is dropped once for a non-root entry and not at all for a root entry. -/
theorem plgfs_d_release_trace {κ : Type} (K : Kernel κ) (H : Hooks d_release_args) (d : Int)
    (w : World κ) :
    (IS_ERR (K.call Event.plgfs_alloc_context w.k).1 = false →
      (plgfs_d_release K H d w).trace = w.trace ++ [Event.plgfs_alloc_context,
        Event.plgfs_precall_plgs, Event.dput (K.plgfs_dh (K.call Event.plgfs_alloc_context w.k).2 d),
        Event.plgfs_postcall_plgs, Event.kmem_cache_free_di (K.plgfs_di w.k d),
        Event.plgfs_free_context (K.call Event.plgfs_alloc_context w.k).1]) ∧
    (IS_ERR (K.call Event.plgfs_alloc_context w.k).1 = true →
      IS_ROOT K (K.call Event.plgfs_alloc_context w.k).2 d = false →
      (plgfs_d_release K H d w).trace = w.trace ++ [Event.plgfs_alloc_context,
        Event.dput (K.plgfs_dh (K.call Event.plgfs_alloc_context w.k).2 d),
        Event.kmem_cache_free_di (K.plgfs_di w.k d), Event.pr_err]) ∧
    (IS_ERR (K.call Event.plgfs_alloc_context w.k).1 = true →
      IS_ROOT K (K.call Event.plgfs_alloc_context w.k).2 d = true →
      (plgfs_d_release K H d w).trace = w.trace ++ [Event.plgfs_alloc_context,
        Event.kmem_cache_free_di (K.plgfs_di w.k d), Event.pr_err]) := by
  refine ⟨fun h => ?_, fun h hr => ?_, fun h hr => ?_⟩
  · simp [plgfs_d_release, exec, emit, plgfs_precall_plgs, plgfs_postcall_plgs, h]
  · simp [plgfs_d_release, exec, emit, h, hr]
  · simp [plgfs_d_release, exec, emit, h, hr]

/-- C7 (the code at the failing input): for the root entry at address 10 and a failing
context allocation, `plgfs_d_release` frees the shadow record and logs, but never calls
`dput` on the backing entry; with a context it drops the backing reference of the same
root entry (address 110), and without a context it drops the one of the non-root entry at
address 11. -/
theorem plgfs_d_release_root_alloc_failure :
    (plgfs_d_release toy (hooks_pass d_release_args) 10
        (toy_world { toy_state with alloc_fails := true })).trace
      = [Event.plgfs_alloc_context, Event.kmem_cache_free_di 210, Event.pr_err] ∧
    (plgfs_d_release toy (hooks_pass d_release_args) 10 (toy_world toy_state)).trace
      = [Event.plgfs_alloc_context, Event.plgfs_precall_plgs, Event.dput 110,
          Event.plgfs_postcall_plgs, Event.kmem_cache_free_di 210,
          Event.plgfs_free_context 4096] ∧
    (plgfs_d_release toy (hooks_pass d_release_args) 11
        (toy_world { toy_state with alloc_fails := true })).trace
      = [Event.plgfs_alloc_context, Event.dput 111, Event.kmem_cache_free_di 211,
          Event.pr_err] := by
  decide

/-- What `plgfs_reg_iop_setattr` does when the pre-hook chain leaves the attribute-record
argument of the context pointing to the caller's record `ia`: on the handled path the
caller's record holds its original file handle at return; on the forwarding path with
`ATTR_FILE` set, the record handed to `notify_change` is the caller's record carrying
`plgfs_fh` of the original handle, and the caller's record holds the original handle
again at return. -/
theorem plgfs_reg_iop_setattr_same_record {κ : Type} (K : Kernel κ)
    (H : Hooks i_setattr_args) (d ia : Int) (w : World κ) (c0 : plgfs_context i_setattr_args)
    (halloc : IS_ERR (K.call Event.plgfs_alloc_context w.k).1 = false)
    (hc0 : c0 = { op_id := OpId.PLGFS_REG_IOP_SETATTR, op_args := { dentry := d, iattr := ia },
                  op_rv := K.ctx_rv (K.call Event.plgfs_alloc_context w.k).2
                    (K.call Event.plgfs_alloc_context w.k).1 }) :
    let k1 := (K.call Event.plgfs_alloc_context w.k).2
    let c := (H.pre c0 w.iattrs).2.1
    let m := (H.pre c0 w.iattrs).2.2
    let f := (w.iattrs ia).ia_file
    let dh := K.plgfs_dh k1 c.op_args.dentry
    let r := plgfs_reg_iop_setattr K H d ia w
    ((H.pre c0 w.iattrs).1 = 0 → (r.2.iattrs ia).ia_file = f) ∧
    ((H.pre c0 w.iattrs).1 ≠ 0 → c.op_args.iattr = ia → ((m ia).ia_valid &&& ATTR_FILE) ≠ 0 →
      Event.notify_change dh ia { m ia with ia_file := K.plgfs_fh k1 f } ∈ r.2.trace ∧
      (r.2.iattrs ia).ia_file = f) := by
  subst hc0
  generalize hA : K.call Event.plgfs_alloc_context w.k = A at *
  generalize hP : H.pre _ w.iattrs = P at *
  intro k1 c m f dh r
  constructor
  · intro h
    simp [r, f, plgfs_reg_iop_setattr, exec, emit, plgfs_precall_plgs, plgfs_postcall_plgs,
      hA, hP, halloc, h, set_ia_file]
  · intro h hia hattr
    have hia1 : P.2.1.op_args.iattr = ia := hia
    have hattr1 : ¬ ((P.2.2 ia).ia_valid &&& ATTR_FILE = 0) := hattr
    simp [r, f, dh, m, k1, plgfs_reg_iop_setattr, exec, emit, plgfs_precall_plgs,
      plgfs_postcall_plgs, hA, hP, halloc, h, hia1, hattr1, set_ia_file]

/-- C8 (the code at the failing input): the caller's attribute record at address 100
holds the visible file handle 5 with `ATTR_FILE` set, and the pre-hook chain points the
context to the record at address 200 (file handle 77).  The record forwarded to
`notify_change` is the one at address 200 and carries 77, not the backing handle
`plgfs_fh(5) = 105`; at return the caller's record holds 105 instead of 5, and the
handle 5 has been written into the record at address 200. -/
theorem plgfs_reg_iop_setattr_replaced_record :
    ((toy_world toy_state).iattrs 100).ia_file = 5 ∧
    (plgfs_reg_iop_setattr toy hooks_replace_ia 11 100 (toy_world toy_state)).2.trace
      = [Event.plgfs_alloc_context, Event.plgfs_precall_plgs, Event.mutex_lock 1111,
          Event.notify_change 111 200 { ia_valid := ATTR_FILE, ia_file := 77 },
          Event.mutex_unlock 1111, Event.fsstack_copy_attr_all 1011 1111,
          Event.fsstack_copy_inode_size 1011 1111, Event.plgfs_postcall_plgs,
          Event.plgfs_free_context 4096] ∧
    ((plgfs_reg_iop_setattr toy hooks_replace_ia 11 100 (toy_world toy_state)).2.iattrs 100).ia_file
      = 105 ∧
    ((plgfs_reg_iop_setattr toy hooks_replace_ia 11 100 (toy_world toy_state)).2.iattrs 200).ia_file
      = 5 := by
  decide

/-- C9: `plgfs_dir_iop_rename` hands `unlock_rename` the directories it handed
`lock_rename`, on every path, for a kernel in which `lock_rename` changes no parent link
and `vfs_rename` either leaves the parents of the two backing entries as they are or
exchanges them (what `d_move` does).  When the pre-hooks signal "handled" neither
`lock_rename` nor `unlock_rename` is called.  On the two trap paths the calls between the
hook chains are `lock_rename (p1, p2)` and `unlock_rename (p1, p2)`.  On the path through
`vfs_rename`, whatever it returns, they are `lock_rename (p1, p2)`, `vfs_rename` and
`unlock_rename (q1, q2)` with `(q1, q2)` the parents read again after the rename: the
same two directories as `(p1, p2)`, in the opposite order when the rename re-parented
the source entry under the destination directory. -/
theorem rename_unlocks_locked_pair {κ : Type} (K : Kernel κ) (H : Hooks i_rename_args)
    (oi od ni nd : Int) (w : World κ) (c0 : plgfs_context i_rename_args)
    (halloc : IS_ERR (K.call Event.plgfs_alloc_context w.k).1 = false)
    (hc0 : c0 = { op_id := OpId.PLGFS_DIR_IOP_RENAME,
                  op_args := { old_dir := oi, old_dentry := od, new_dir := ni, new_dentry := nd },
                  op_rv := K.ctx_rv (K.call Event.plgfs_alloc_context w.k).2
                    (K.call Event.plgfs_alloc_context w.k).1 })
    (hlock : ∀ k p1 p2 x, K.d_parent (K.call (Event.lock_rename p1 p2) k).2 x = K.d_parent k x)
    (hmove : ∀ k a b c d,
      (K.d_parent (K.call (Event.vfs_rename a b c d) k).2 b = K.d_parent k b ∧
        K.d_parent (K.call (Event.vfs_rename a b c d) k).2 d = K.d_parent k d) ∨
      (K.d_parent (K.call (Event.vfs_rename a b c d) k).2 b = K.d_parent k d ∧
        K.d_parent (K.call (Event.vfs_rename a b c d) k).2 d = K.d_parent k b)) :
    let cont := (K.call Event.plgfs_alloc_context w.k).1
    let k1 := (K.call Event.plgfs_alloc_context w.k).2
    let c := (H.pre c0 w.iattrs).2.1
    let oih := K.plgfs_ih k1 c.op_args.old_dir
    let odh := K.plgfs_dh k1 c.op_args.old_dentry
    let nih := K.plgfs_ih k1 c.op_args.new_dir
    let ndh := K.plgfs_dh k1 c.op_args.new_dentry
    let p1 := K.d_parent k1 ndh
    let p2 := K.d_parent k1 odh
    let trap := (K.call (Event.lock_rename p1 p2) k1).1
    let k2 := (K.call (Event.lock_rename p1 p2) k1).2
    let k3 := (K.call (Event.vfs_rename oih odh nih ndh) k2).2
    let q1 := K.d_parent k3 ndh
    let q2 := K.d_parent k3 odh
    let r := plgfs_dir_iop_rename K H oi od ni nd w
    ((H.pre c0 w.iattrs).1 = 0 →
      r.2.trace = w.trace ++ [Event.plgfs_alloc_context, Event.plgfs_precall_plgs,
        Event.plgfs_postcall_plgs, Event.plgfs_free_context cont]) ∧
    ((H.pre c0 w.iattrs).1 ≠ 0 → (trap = odh ∨ trap = ndh) →
      r.2.trace = w.trace ++ [Event.plgfs_alloc_context, Event.plgfs_precall_plgs,
        Event.lock_rename p1 p2, Event.unlock_rename p1 p2,
        Event.plgfs_postcall_plgs, Event.plgfs_free_context cont]) ∧
    ((H.pre c0 w.iattrs).1 ≠ 0 → trap ≠ odh → trap ≠ ndh →
      r.2.trace = w.trace ++ [Event.plgfs_alloc_context, Event.plgfs_precall_plgs,
        Event.lock_rename p1 p2, Event.vfs_rename oih odh nih ndh, Event.unlock_rename q1 q2,
        Event.plgfs_postcall_plgs, Event.plgfs_free_context cont] ∧
      ((q1 = p1 ∧ q2 = p2) ∨ (q1 = p2 ∧ q2 = p1)) ∧
      (K.d_parent k3 odh = K.d_parent k2 ndh → q1 = p2 ∧ q2 = p1)) := by
  subst hc0
  generalize hA : K.call Event.plgfs_alloc_context w.k = A at *
  generalize hP : H.pre _ w.iattrs = P at *
  intro cont k1 c oih odh nih ndh p1 p2 trap k2 k3 q1 q2 r
  have hl1 : K.d_parent k2 ndh = p1 := hlock k1 p1 p2 ndh
  have hl2 : K.d_parent k2 odh = p2 := hlock k1 p1 p2 odh
  refine ⟨fun h => ?_, fun h ht => ?_, fun h ht1 ht2 => ?_⟩
  · simp [r, cont, plgfs_dir_iop_rename, exec, emit, plgfs_precall_plgs,
      plgfs_postcall_plgs, hA, hP, halloc, h]
  · have hl1a : K.d_parent (K.call (Event.lock_rename (K.d_parent A.2
          (K.plgfs_dh A.2 P.2.1.op_args.new_dentry)) (K.d_parent A.2
          (K.plgfs_dh A.2 P.2.1.op_args.old_dentry))) A.2).2
          (K.plgfs_dh A.2 P.2.1.op_args.new_dentry)
        = K.d_parent A.2 (K.plgfs_dh A.2 P.2.1.op_args.new_dentry) := hl1
    have hl2a : K.d_parent (K.call (Event.lock_rename (K.d_parent A.2
          (K.plgfs_dh A.2 P.2.1.op_args.new_dentry)) (K.d_parent A.2
          (K.plgfs_dh A.2 P.2.1.op_args.old_dentry))) A.2).2
          (K.plgfs_dh A.2 P.2.1.op_args.old_dentry)
        = K.d_parent A.2 (K.plgfs_dh A.2 P.2.1.op_args.old_dentry) := hl2
    by_cases hto : trap = odh
    · have hto1 : (K.call (Event.lock_rename p1 p2) k1).1 = odh := hto
      simp [r, cont, p1, p2, odh, ndh, k1, c, plgfs_dir_iop_rename, exec, emit,
        plgfs_precall_plgs, plgfs_postcall_plgs, hA, hP, halloc, h, hto1, hl1a, hl2a]
    · have htn : (K.call (Event.lock_rename p1 p2) k1).1 = ndh := ht.resolve_left hto
      have hne : ¬ (K.plgfs_dh k1 c.op_args.new_dentry = K.plgfs_dh k1 c.op_args.old_dentry) :=
        fun e => hto (by rw [show trap = ndh from htn]; exact e)
      simp [r, cont, p1, p2, odh, ndh, k1, c, plgfs_dir_iop_rename, exec, emit,
        plgfs_precall_plgs, plgfs_postcall_plgs, hA, hP, halloc, h, htn, hne, hl1a, hl2a]
  · have ht1a : ¬ ((K.call (Event.lock_rename p1 p2) k1).1 = odh) := ht1
    have ht2a : ¬ ((K.call (Event.lock_rename p1 p2) k1).1 = ndh) := ht2
    refine ⟨?_, ?_, ?_⟩
    · simp [r, cont, q1, q2, k3, k2, p1, p2, oih, nih, odh, ndh, k1, c, plgfs_dir_iop_rename,
        exec, emit, plgfs_precall_plgs, plgfs_postcall_plgs, hA, hP, halloc, h, ht1a, ht2a]
    · rcases hmove k2 oih odh nih ndh with ⟨h1, h2⟩ | ⟨h1, h2⟩
      · exact Or.inl ⟨h2.trans hl1, h1.trans hl2⟩
      · exact Or.inr ⟨h2.trans hl2, h1.trans hl1⟩
    · intro hre
      rcases hmove k2 oih odh nih ndh with ⟨h1, h2⟩ | ⟨h1, h2⟩
      · have e : p2 = p1 := by rw [← hl2, ← hl1, ← h1]; exact hre
        exact ⟨(h2.trans hl1).trans e.symm, (h1.trans hl2).trans e⟩
      · exact ⟨h2.trans hl2, h1.trans hl1⟩

/-- Instance of C9 on the small filesystem: the entry 11 of directory 10 is renamed onto
the entry 21 of directory 20; the backing rename succeeds and moves the backing source
entry 111 under the backing destination directory 120.  `lock_rename` gets the
directories 120 and 110 and `unlock_rename` gets 110 and 120. -/
theorem rename_unlocks_locked_pair_witness :
    (plgfs_dir_iop_rename toy (hooks_pass i_rename_args) 10 11 20 21
        (toy_world toy_state)).2.trace
      = [Event.plgfs_alloc_context, Event.plgfs_precall_plgs, Event.lock_rename 120 110,
          Event.vfs_rename 110 111 120 121, Event.unlock_rename 110 120,
          Event.plgfs_postcall_plgs, Event.plgfs_free_context 4096] ∧
    toy.d_parent (plgfs_dir_iop_rename toy (hooks_pass i_rename_args) 10 11 20 21
        (toy_world toy_state)).2.k 111 = 120 :=
  ⟨((rename_unlocks_locked_pair toy (hooks_pass i_rename_args) 10 11 20 21
      (toy_world toy_state) _ (by decide) rfl (fun _ _ _ _ => rfl)
      (fun k a b c d => Or.inr (by
        by_cases hdb : d = b <;> simp [toy, toy_call, hdb]))).2.2
      (by decide) (by decide) (by decide)).1,
    by decide⟩

end Ops
